import Mathlib

/-!
Verification development for the `Zjoz/Scraper` repository.

The definitions below are a shallow embedding of `src/scraper_lib.py`
(version 3.0.0).  Python functions become Lean functions; the sqlite
tables of the scrape and master databases become explicit lists of rows;
the mutable `urls_todo` / `urls_done` sets of the crawl driver become
explicit list-typed state threaded through the functions.  Every
definition is written from the source code of the repository, keeping the
source's names where Lean allows it.
-/

set_option autoImplicit false

namespace Scraper

/-! ## Python values and the `parameter` function (scraper_lib.py lines 422-459)

`parameter(con, name, value)` reads or sets a row of the `parameters`
table (`name TEXT PRIMARY KEY, value TEXT`).  The Python value domain is
`Union[str, int, float, bool] = None`; floats are modelled as rationals
(Python float literals that occur as parameter values are plain decimal
numbers, far below the precision where binary floating point would
diverge from the rational reading). -/

/-- A Python value as accepted/returned by `parameter`. -/
inductive PVal where
  | vnone : PVal
  | vint (n : Int) : PVal
  | vfloat (q : Rat) : PVal
  | vstr (s : String) : PVal
  | vbool (b : Bool) : PVal
  deriving DecidableEq, Repr

/-- Python truthiness (`if value:`) on the `parameter` value domain. -/
def pyTruthy : PVal → Bool
  | .vnone => false
  | .vint n => n != 0
  | .vfloat q => q != 0
  | .vstr s => s != ""
  | .vbool b => b

/-- Text stored by sqlite for a bound Python value in a TEXT column
(ints keep their decimal form, bools bind as the ints 1/0). -/
def toDbText : PVal → String
  | .vnone => ""
  | .vint n => toString n
  | .vfloat q => toString q
  | .vstr s => s
  | .vbool b => if b then "1" else "0"

/-- Model of Python `int(s)`: optional surrounding whitespace, optional
sign, decimal digits. -/
def parseIntText (s : String) : Option Int :=
  let t := s.trim
  if t.startsWith "-" then
    ((t.drop 1).toNat?).map (fun n => -(n : Int))
  else if t.startsWith "+" then
    ((t.drop 1).toNat?).map (fun n => (n : Int))
  else
    (t.toNat?).map (fun n => (n : Int))

/-- Digits of a string interpreted as a natural number, `none` if the
string contains a non-digit.  An empty string yields `some 0` (callers
guard against the all-empty case). -/
def digitsToNat? (s : String) : Option Nat :=
  if s.isEmpty then some 0
  else s.toNat?

/-- Model of Python `float(s)` restricted to finite decimal/exponent
forms `[+-]digits[.digits][(e|E)[+-]digits]` (the forms that occur in
stored parameter text).  Returns the exact rational value. -/
def parseFloatText (s : String) : Option Rat :=
  let t := s.trim
  let signed : Bool × String :=
    if t.startsWith "-" then (true, t.drop 1)
    else if t.startsWith "+" then (false, t.drop 1)
    else (false, t)
  let neg := signed.1
  let body := signed.2
  let parts := body.splitOn "e"
  let parts := if parts.length = 1 then body.splitOn "E" else parts
  let mantExp : Option (String × Int) :=
    match parts with
    | [m] => some (m, 0)
    | [m, e] => (parseIntText e).map (fun x => (m, x))
    | _ => none
  match mantExp with
  | none => none
  | some (m, ex) =>
    match m.splitOn "." with
    | [ip] =>
      if ip.isEmpty then none
      else (digitsToNat? ip).map (fun n =>
        (if neg then -(n : Rat) else (n : Rat)) * (10 : Rat) ^ ex)
    | [ip, fp] =>
      if ip.isEmpty && fp.isEmpty then none
      else
        match digitsToNat? ip, digitsToNat? fp with
        | some n, some f =>
          let mant : Rat := (n : Rat) + (f : Rat) / (10 : Rat) ^ fp.length
          some ((if neg then -mant else mant) * (10 : Rat) ^ ex)
        | _, _ => none
    | _ => none

/-- The `parameters` table: rows `(name, value)` with `name` unique. -/
abbrev ParamTable := List (String × String)

/-- `INSERT OR REPLACE INTO parameters (name, value) VALUES (?, ?)`:
the row with a conflicting primary key is deleted and the new row
inserted. -/
def insertOrReplaceParam (t : ParamTable) (name value : String) : ParamTable :=
  (t.filter (fun r => r.1 != name)) ++ [(name, value)]

/-- `SELECT value FROM parameters WHERE name = ?` (first row or none). -/
def lookupParam (t : ParamTable) (name : String) : Option String :=
  (t.find? (fun r => r.1 == name)).map (·.2)

/-- The coercion applied by `parameter` on the read path: try `int`,
then `float`, else keep the text. -/
def coerceParamText (s : String) : PVal :=
  match parseIntText s with
  | some n => .vint n
  | none =>
    match parseFloatText s with
    | some q => .vfloat q
    | none => .vstr s

/-- Model of `parameter` (scraper_lib.py lines 422-459).  Returns the
function result together with the table after the call. -/
def parameter (t : ParamTable) (name : String) (value : PVal) : PVal × ParamTable :=
  if pyTruthy value then
    (value, insertOrReplaceParam t name (toDbText value))
  else
    match lookupParam t name with
    | none => (.vnone, t)
    | some s => (coerceParamText s, t)

/-! ## The crawl engine (scraper_lib.py lines 533-805, 258-264)

URLs are strings.  The network is a function `Url → Fetch`: a request
either yields an `HttpResp` or raises a `requests.exceptions.
RequestException` (modelled by `Fetch.raise`; `scrape_page` contains no
try/except around its `requests.get`, so a raise propagates).  The
`urljoin` function of `urllib.parse` is kept abstract as a parameter
`ujoin`.  The parsed page (`BeautifulSoup(resp.text)`) is represented by
the data `scrape_page` extracts from it: the client-refresh target, the
`DCTERMS.identifier` content, and the `<a href>` tags of the three trees
returned by `split_tree` (editorial, automated, rest). -/

abbrev Url := String

/-! String primitives.  The Lean core versions of `startsWith`,
`splitOn`, `trim` … are compiled through well-founded recursion and do
not reduce inside the kernel, so the model uses structurally recursive
character-list versions of the Python string operations it needs. -/

/-- Python `s.startswith(pre)`. -/
def chStarts (s pre : String) : Bool := pre.data.isPrefixOf s.data

/-- Python `s.endswith(suf)`. -/
def chEnds (s suf : String) : Bool := suf.data.isSuffixOf s.data

/-- Python `s.strip()`. -/
def chTrim (s : String) : String :=
  ⟨(((s.data.dropWhile Char.isWhitespace).reverse).dropWhile
      Char.isWhitespace).reverse⟩

/-- Worker for `splitOnCh`: fuel-indexed scan so the recursion is
structural (the fuel is the length of the string, which suffices since
each step consumes at least one character). -/
def splitGo (sep : List Char) : Nat → List Char → List Char → List (List Char)
  | 0, s, acc => [acc.reverse ++ s]
  | n + 1, s, acc =>
    match s with
    | [] => [acc.reverse]
    | c :: rest =>
      if sep.isPrefixOf s then
        acc.reverse :: splitGo sep n (s.drop sep.length) []
      else splitGo sep n rest (c :: acc)

/-- Python `s.split(sep)` for a non-empty separator. -/
def splitOnCh (s sep : String) : List String :=
  (splitGo sep.data s.data.length s.data []).map (fun l => ⟨l⟩)

/-- Python `sep.join(parts)`. -/
def joinCh (sep : String) (parts : List String) : String :=
  ⟨List.intercalate sep.data (parts.map String.data)⟩

/-- A row of the `redirs` table (requested url, destination url, type).
The type is `"301"`/`"302"` for server redirects, `"client"` for a meta
refresh, `"alias"` for a wcm alias. -/
structure Redir where
  req : Url
  dest : Url
  kind : String
  deriving DecidableEq, Repr

/-- `INSERT OR IGNORE INTO redirs (req_url, redir_url, redir_type)`:
`req_url` carries a UNIQUE constraint, so the insert is ignored whenever
any row with the same requested url already exists. -/
def insertRedir (rs : List Redir) (r : Redir) : List Redir :=
  if rs.any (fun x => x.req == r.req) then rs else rs ++ [r]

/-- Response status as recorded for an external link: the integer status
code, or the error text built in `check_ext_link` when the request
raised. -/
inductive LinkStatus where
  | num (n : Nat)
  | errstr (s : String)
  deriving DecidableEq, Repr

/-- A row of the `links` table. -/
structure LinkRow where
  nr : Nat
  url : Url
  anchor : Option String
  ltype : Option String
  status : Option LinkStatus
  deriving DecidableEq, Repr

/-- A row of the `ed_links` table. -/
structure EdLinkRow where
  pid : Nat
  text : String
  nr : Nat
  deriving DecidableEq, Repr

/-- The scrape database state touched by `scrape_page`: the
`scr_wcm_paths`, `pages`, `redirs`, `links` and `ed_links` tables plus
the AUTOINCREMENT counters. -/
structure ScrapeDb where
  paths : List (Nat × String)
  pages : List (Nat × String)
  redirs : List Redir
  links : List LinkRow
  edLinks : List EdLinkRow
  nextPathId : Nat
  nextLinkNr : Nat
  deriving DecidableEq, Repr

/-- A freshly created scrape database (AUTOINCREMENT counters start
at 1). -/
def emptyDb : ScrapeDb := ⟨[], [], [], [], [], 1, 1⟩

/-- An `<a href>` tag: its href attribute and its anchor text. -/
structure ATag where
  href : String
  text : String
  deriving DecidableEq, Repr

/-- The data `scrape_page` reads from a parsed 200-response body. -/
structure Body where
  refresh : Option String
  wcm : Option String
  edLinks : List ATag
  autLinks : List ATag
  rstLinks : List ATag
  deriving DecidableEq, Repr

/-- A body with no refresh, no wcm identifier and no links. -/
def emptyBody : Body := ⟨none, none, [], [], []⟩

/-- An HTTP response as seen with `allow_redirects=False`: status code,
`Location` header, parsed body and raw text.  With redirects disabled
`resp.url` is the requested url itself. -/
structure HttpResp where
  status : Nat
  location : Url
  body : Body
  raw : String
  deriving DecidableEq, Repr

/-- Outcome of one `requests.get`: a response, or a raised
`RequestException`. -/
inductive Fetch where
  | resp (r : HttpResp)
  | raise (msg : String)
  deriving DecidableEq, Repr

/-- Adding a url to one of the Python sets `urls_done` / `urls_todo`. -/
def insertUrl (s : List Url) (u : Url) : List Url :=
  if u ∈ s then s else s ++ [u]

/-- Python `sub in s` (substring test). -/
def containsSub (s sub : String) : Bool :=
  (splitOnCh s sub).length != 1

/-- Python `s.split(sep)[1]`: the second piece of the split, `none` when
the split yields fewer than two pieces (where Python raises
`IndexError`).  Used for `wcm_url.split(root_url)[1]`. -/
def splitIndex1 (s sep : String) : Option String :=
  match splitOnCh s sep with
  | _ :: p :: _ => some p
  | _ => none

/-- Python `link.partition('#')`: text before the first `#` and the
anchor after it (`none` when no `#` occurs; `scrape_page` only calls
this when one does). -/
def partitionHash (s : String) : String × Option String :=
  match splitOnCh s "#" with
  | x :: rest@(_ :: _) => (x, some (joinCh "#" rest))
  | _ => (s, none)

/-- Model of the inner function `save_page` (lines 609-636): look up the
path in `scr_wcm_paths`; when present return `None` (already saved
during this scrape), otherwise insert the path and the page and return
the fresh page id. -/
def save_page (db : ScrapeDb) (path doc : String) : Option Nat × ScrapeDb :=
  match db.paths.find? (fun r => r.2 == path) with
  | some _ => (none, db)
  | none =>
    let pid := db.nextPathId
    (some pid,
     { db with
         paths := db.paths ++ [(pid, path)]
         pages := db.pages ++ [(pid, doc)]
         nextPathId := pid + 1 })

/-- Termination of the request loop of `scrape_page` (lines 646-699). -/
inductive LoopEnd where
  | exc (msg : String)
  | failed
  | offScope
  | term (url : Url) (body : Body) (raw : String)
  | spin
  deriving DecidableEq, Repr

/-- The request loop of `scrape_page` (lines 646-699): keep requesting
until no further redirects occur, adding each requested url to
`urls_done` and recording redirects.  A 301/302 whose `Location` is in
scope restarts the loop on that target; a 200 whose body carries a
client refresh restarts the loop on the refresh target; any other
status is a logged failure returning `None`.  An exception from
`requests.get` propagates (`LoopEnd.exc`) with the mutations made so
far kept (sets and db writes are in-place).  `fuel` bounds the number
of physical requests (the Python loop has no such bound). -/
def requestLoop (net : Url → Fetch) (ujoin : Url → String → Url) (rootUrl : Url) :
    Nat → Url → List Url → List Redir → LoopEnd × List Url × List Redir
  | 0, _, done, rs => (.spin, done, rs)
  | fuel + 1, reqUrl, done, rs =>
    match net reqUrl with
    | .raise msg => (.exc msg, done, rs)
    | .resp r =>
      let done' := insertUrl done reqUrl
      if r.status == 200 then
        match r.body.refresh with
        | some tgt =>
          let redirUrl := ujoin reqUrl tgt
          let rs' :=
            if chStarts reqUrl rootUrl || chStarts redirUrl rootUrl then
              insertRedir rs ⟨reqUrl, redirUrl, "client"⟩
            else rs
          if chStarts redirUrl rootUrl then
            requestLoop net ujoin rootUrl fuel redirUrl done' rs'
          else (.offScope, done', rs')
        | none => (.term reqUrl r.body r.raw, done', rs)
      else if r.status == 301 || r.status == 302 then
        let redirUrl := r.location
        let rs' :=
          if chStarts reqUrl rootUrl || chStarts redirUrl rootUrl then
            insertRedir rs ⟨reqUrl, redirUrl, toString r.status⟩
          else rs
        if chStarts redirUrl rootUrl then
          requestLoop net ujoin rootUrl fuel redirUrl done' rs'
        else (.offScope, done', rs')
      else (.failed, done', rs)

/-- Model of the inner function `check_ext_link` (lines 573-607): one
request with redirects disabled; on a 301/302/303/307 the type gains
`-to-int` or `-to-ext` depending on the `Location`; a raised exception
is returned through the status. -/
def check_ext_link (net : Url → Fetch) (rootUrl : Url) (url : Url) :
    String × LinkStatus :=
  match net url with
  | .raise msg => ("ext", .errstr ("error while checking: " ++ msg))
  | .resp r =>
    if r.status == 301 || r.status == 302 || r.status == 303 || r.status == 307 then
      if chStarts r.location rootUrl then ("ext-to-int", .num r.status)
      else ("ext-to-ext", .num r.status)
    else ("ext", .num r.status)

/-- Everything the link loop of `scrape_page` reads but does not write:
the network, `urljoin`, root url, `resp.url`, the wcm url, the page id
of the saved page and the `urls_done` set (not mutated during the link
loop). -/
structure LinkCtx where
  net : Url → Fetch
  ujoin : Url → String → Url
  rootUrl : Url
  respUrl : Url
  wcmUrl : Url
  pageId : Nat
  done : List Url

/-- The editorial-link administration of `scrape_page` (lines 759-791),
entered when the link is non-empty and was found in the editorial tree:
look the (url, anchor) pair up in the `links` table; when absent,
determine type and status (checking external links through
`check_ext_link`) and insert a fresh `links` row; either way add an
`ed_links` row tying the link to the page.  The comparison
`link_status == 'ext-to-int'` of line 779 compares the response
*status* with a type string and is modelled verbatim. -/
def edLinkAdmin (cx : LinkCtx) (st : ScrapeDb × List Url) (a : ATag)
    (link : String) (anchor : Option String) : ScrapeDb × List Url :=
  match st.1.links.find? (fun lr => lr.url == link && lr.anchor == anchor) with
  | some lr =>
    ({ st.1 with edLinks := st.1.edLinks ++ [⟨cx.pageId, chTrim a.text, lr.nr⟩] },
     st.2)
  | none =>
    let tst :=
      if chStarts link "http://" || chStarts link "https://" then
        if chStarts link cx.rootUrl then
          ((some "int", (none : Option LinkStatus)), st.2)
        else
          let ts := check_ext_link cx.net cx.rootUrl
            (match anchor with
             | some an => link ++ "#" ++ an
             | none => link)
          let todo' :=
            if ts.2 == LinkStatus.errstr "ext-to-int" then
              if link ∉ cx.done then insertUrl st.2 link else st.2
            else st.2
          ((some ts.1, some ts.2), todo')
      else (((none : Option String), (none : Option LinkStatus)), st.2)
    let nr := st.1.nextLinkNr
    let row : LinkRow := ⟨nr, link, anchor, tst.1.1, tst.1.2⟩
    let db' : ScrapeDb :=
      { st.1 with
          links := st.1.links ++ [row]
          nextLinkNr := nr + 1 }
    let erow : EdLinkRow := ⟨cx.pageId, chTrim a.text, nr⟩
    ({ db' with edLinks := db'.edLinks ++ [erow] }, tst.2)

/-- The enqueue step of the link loop (lines 792-802), entered when the
link is non-empty: `.xml` urls, out-of-scope urls and urls already done
are discarded, everything else goes to `urls_todo`. -/
def enqueueLink (cx : LinkCtx) (st : ScrapeDb × List Url) (link : String) :
    ScrapeDb × List Url :=
  if chEnds link ".xml" then st
  else if !chStarts link cx.rootUrl then st
  else if link ∈ cx.done then st
  else (st.1, insertUrl st.2 link)

/-- One iteration of the link loop of `scrape_page` (lines 743-802):
filter the href, resolve it against `resp.url`, split off the anchor
for in-scope urls, discard in-page links, then run the editorial-link
administration and the enqueue step. -/
def processLink (cx : LinkCtx) (editorial : Bool) (st : ScrapeDb × List Url)
    (a : ATag) : ScrapeDb × List Url :=
  let link0 := chTrim a.href
  if link0 == "#" || link0 == "/" then st
  else if containsSub link0 "readspeaker" || containsSub link0 "adobe"
      || containsSub link0 "java" then st
  else
    let link1 := cx.ujoin cx.respUrl link0
    let pa :=
      if chStarts link1 cx.rootUrl && containsSub link1 "#" then
        partitionHash link1
      else (link1, none)
    let link := pa.1
    let anchor := pa.2
    if link == cx.wcmUrl then st
    else
      let st1 :=
        if link != "" && editorial then edLinkAdmin cx st a link anchor
        else st
      if link != "" then enqueueLink cx st1 link
      else st1

/-- The full link loop of `scrape_page` (lines 739-802): the editorial,
automated and rest trees of `split_tree` in order, only the first with
the editorial flag set. -/
def linkPhase (cx : LinkCtx) (body : Body) (db : ScrapeDb) (todo : List Url) :
    ScrapeDb × List Url :=
  let st := body.edLinks.foldl (processLink cx true) (db, todo)
  let st := body.autLinks.foldl (processLink cx false) st
  body.rstLinks.foldl (processLink cx false) st

/-- The wcm-url determination of `scrape_page` (lines 701-718) for an
in-scope terminal response: take the `DCTERMS.identifier` content
resolved against `resp.url`; when it differs from `resp.url` record an
`alias` redirect and mark the wcm url done; a missing identifier falls
back to `resp.url` (logged).  Returns (wcm url, redirs, done). -/
def wcmResolve (ujoin : Url → String → Url) (respUrl : Url)
    (metaWcm : Option String) (rs : List Redir) (done : List Url) :
    Url × List Redir × List Url :=
  match metaWcm with
  | some c =>
    let wcmUrl := ujoin respUrl c
    if wcmUrl != respUrl then
      (wcmUrl, insertRedir rs ⟨respUrl, wcmUrl, "alias"⟩, insertUrl done wcmUrl)
    else (wcmUrl, rs, done)
  | none => (respUrl, rs, done)

/-- Result of one `scrape_page` call. -/
inductive VisitRes where
  | exc (msg : String)
  | noneRes
  | wcm (url : Url)
  | spin
  deriving DecidableEq, Repr

/-- The mutable state a `scrape_page` call works on. -/
structure VisitState where
  done : List Url
  todo : List Url
  db : ScrapeDb
  deriving Repr

/-- Model of `scrape_page` (lines 533-804): run the request loop; on an
in-scope terminal response determine the wcm url, save the page under
the wcm path (`wcm_url.split(root_url)[1]`; a `None` from `save_page`
means the page was already saved and the visit returns `None`), then
run the link loop.  A raised exception propagates out (`.exc`), keeping
the in-place mutations made before it. -/
def scrape_page (net : Url → Fetch) (ujoin : Url → String → Url)
    (rootUrl : Url) (fuel : Nat) (reqUrl : Url) (st : VisitState) :
    VisitRes × VisitState :=
  match requestLoop net ujoin rootUrl fuel reqUrl st.done st.db.redirs with
  | (.exc m, done', rs') => (.exc m, ⟨done', st.todo, { st.db with redirs := rs' }⟩)
  | (.failed, done', rs') => (.noneRes, ⟨done', st.todo, { st.db with redirs := rs' }⟩)
  | (.offScope, done', rs') => (.noneRes, ⟨done', st.todo, { st.db with redirs := rs' }⟩)
  | (.spin, done', rs') => (.spin, ⟨done', st.todo, { st.db with redirs := rs' }⟩)
  | (.term url body raw, done', rs') =>
    if chStarts url rootUrl then
      let w := wcmResolve ujoin url body.wcm rs' done'
      let wcmUrl := w.1
      let rs2 := w.2.1
      let done2 := w.2.2
      match splitIndex1 wcmUrl rootUrl with
      | none =>
        (.exc "IndexError", ⟨done2, st.todo, { st.db with redirs := rs2 }⟩)
      | some wcmPath =>
        let sp := save_page { st.db with redirs := rs2 } wcmPath raw
        match sp.1 with
        | none => (.noneRes, ⟨done2, st.todo, sp.2⟩)
        | some pid =>
          let cx : LinkCtx := ⟨net, ujoin, rootUrl, url, wcmUrl, pid, done2⟩
          let fin := linkPhase cx body sp.2 st.todo
          (.wcm wcmUrl, ⟨done2, fin.2, fin.1⟩)
    else
      (.noneRes, ⟨done', st.todo, { st.db with redirs := rs' }⟩)

/-- The crawl loop of `scrape_site` (lines 258-264): while `urls_todo`
is non-empty and fewer than `max_urls` urls were scraped, pop a url and
call `scrape_page` on it.  There is no try/except around the call: an
exception raised inside `scrape_page` propagates and aborts the crawl
(`Except.error`).  `fuelPage` bounds each visit's redirect chain and
`fuel` the number of visits. -/
def scrape_site_loop (net : Url → Fetch) (ujoin : Url → String → Url)
    (rootUrl : Url) (fuelPage : Nat) :
    Nat → List Url → List Url → ScrapeDb → Nat → Nat →
    Except String (List Url × List Url × ScrapeDb)
  | 0, todo, done, db, _, _ => .ok (todo, done, db)
  | fuel + 1, todo, done, db, maxUrls, scraped =>
    match todo with
    | [] => .ok (todo, done, db)
    | u :: rest =>
      if scraped < maxUrls then
        match scrape_page net ujoin rootUrl fuelPage u ⟨done, rest, db⟩ with
        | (.exc m, _) => .error m
        | (_, st) =>
          scrape_site_loop net ujoin rootUrl fuelPage fuel
            st.todo st.done st.db maxUrls (scraped + 1)
      else .ok (todo, done, db)

/-! ## Helper lemmas on the crawl model -/

theorem insertRedir_fresh (rs : List Redir) (r : Redir)
    (h : ∀ x ∈ rs, x.req ≠ r.req) : insertRedir rs r = rs ++ [r] := by
  unfold insertRedir
  have hany : rs.any (fun x => x.req == r.req) = false := by
    simp only [List.any_eq_false]
    intro x hx
    simpa using h x hx
  simp [hany]

theorem mem_insertUrl {s : List Url} {u x : Url} (h : x ∈ insertUrl s u) :
    x ∈ s ∨ x = u := by
  unfold insertUrl at h
  split at h
  · exact Or.inl h
  · rcases List.mem_append.1 h with h | h
    · exact Or.inl h
    · exact Or.inr (List.mem_singleton.1 h)

theorem edLinkAdmin_todo (cx : LinkCtx) (st : ScrapeDb × List Url) (a : ATag)
    (link : String) (anchor : Option String) (x : Url)
    (hx : x ∈ (edLinkAdmin cx st a link anchor).2) :
    x ∈ st.2 ∨ x ∉ cx.done := by
  simp only [edLinkAdmin] at hx
  repeat' split at hx
  all_goals
    first
    | exact Or.inl hx
    | (rcases mem_insertUrl hx with h1 | h1
       · exact Or.inl h1
       · subst h1; simp_all)

theorem enqueueLink_todo (cx : LinkCtx) (st : ScrapeDb × List Url)
    (link : String) (x : Url) (hx : x ∈ (enqueueLink cx st link).2) :
    x ∈ st.2 ∨ x ∉ cx.done := by
  simp only [enqueueLink] at hx
  repeat' split at hx
  all_goals
    first
    | exact Or.inl hx
    | (rcases mem_insertUrl hx with h1 | h1
       · exact Or.inl h1
       · subst h1; simp_all)

theorem processLink_todo (cx : LinkCtx) (ed : Bool) (st : ScrapeDb × List Url)
    (a : ATag) (x : Url) (hx : x ∈ (processLink cx ed st a).2) :
    x ∈ st.2 ∨ x ∉ cx.done := by
  simp only [processLink] at hx
  repeat' split at hx
  all_goals
    first
    | exact Or.inl hx
    | (rcases enqueueLink_todo _ _ _ _ hx with h1 | h1
       · exact Or.inl h1
       · exact Or.inr h1)
    | (rcases enqueueLink_todo _ _ _ _ hx with h1 | h1
       · rcases edLinkAdmin_todo _ _ _ _ _ _ h1 with h2 | h2
         · exact Or.inl h2
         · exact Or.inr h2
       · exact Or.inr h1)
    | (rcases edLinkAdmin_todo _ _ _ _ _ _ hx with h1 | h1
       · exact Or.inl h1
       · exact Or.inr h1)

theorem foldl_processLink_todo (cx : LinkCtx) (ed : Bool) (links : List ATag)
    (x : Url) :
    ∀ st : ScrapeDb × List Url, x ∈ (links.foldl (processLink cx ed) st).2 →
      x ∈ st.2 ∨ x ∉ cx.done := by
  induction links with
  | nil => intro st hx; exact Or.inl hx
  | cons a as ih =>
    intro st hx
    rw [List.foldl_cons] at hx
    rcases ih (processLink cx ed st a) hx with h | h
    · exact processLink_todo cx ed st a x h
    · exact Or.inr h

theorem linkPhase_todo (cx : LinkCtx) (body : Body) (db : ScrapeDb)
    (todo : List Url) (x : Url) (hx : x ∈ (linkPhase cx body db todo).2) :
    x ∈ todo ∨ x ∉ cx.done := by
  simp only [linkPhase] at hx
  rcases foldl_processLink_todo cx false body.rstLinks x _ hx with h | h
  · rcases foldl_processLink_todo cx false body.autLinks x _ h with h2 | h2
    · rcases foldl_processLink_todo cx true body.edLinks x _ h2 with h3 | h3
      · exact Or.inl h3
      · exact Or.inr h3
    · exact Or.inr h2
  · exact Or.inr h

theorem enqueueLink_fst (cx : LinkCtx) (st : ScrapeDb × List Url)
    (link : String) : (enqueueLink cx st link).1 = st.1 := by
  simp only [enqueueLink]
  repeat' split
  all_goals simp

theorem edLinkAdmin_paths (cx : LinkCtx) (st : ScrapeDb × List Url)
    (a : ATag) (link : String) (anchor : Option String) :
    (edLinkAdmin cx st a link anchor).1.paths = st.1.paths := by
  simp only [edLinkAdmin]
  repeat' split
  all_goals simp

theorem edLinkAdmin_pages (cx : LinkCtx) (st : ScrapeDb × List Url)
    (a : ATag) (link : String) (anchor : Option String) :
    (edLinkAdmin cx st a link anchor).1.pages = st.1.pages := by
  simp only [edLinkAdmin]
  repeat' split
  all_goals simp

theorem edLinkAdmin_redirs (cx : LinkCtx) (st : ScrapeDb × List Url)
    (a : ATag) (link : String) (anchor : Option String) :
    (edLinkAdmin cx st a link anchor).1.redirs = st.1.redirs := by
  simp only [edLinkAdmin]
  repeat' split
  all_goals simp

theorem edLinkAdmin_nextPathId (cx : LinkCtx) (st : ScrapeDb × List Url)
    (a : ATag) (link : String) (anchor : Option String) :
    (edLinkAdmin cx st a link anchor).1.nextPathId = st.1.nextPathId := by
  simp only [edLinkAdmin]
  repeat' split
  all_goals simp

theorem processLink_paths (cx : LinkCtx) (ed : Bool)
    (st : ScrapeDb × List Url) (a : ATag) :
    (processLink cx ed st a).1.paths = st.1.paths := by
  simp only [processLink]
  repeat' split
  all_goals simp [enqueueLink_fst, edLinkAdmin_paths]

theorem processLink_pages (cx : LinkCtx) (ed : Bool)
    (st : ScrapeDb × List Url) (a : ATag) :
    (processLink cx ed st a).1.pages = st.1.pages := by
  simp only [processLink]
  repeat' split
  all_goals simp [enqueueLink_fst, edLinkAdmin_pages]

theorem processLink_redirs (cx : LinkCtx) (ed : Bool)
    (st : ScrapeDb × List Url) (a : ATag) :
    (processLink cx ed st a).1.redirs = st.1.redirs := by
  simp only [processLink]
  repeat' split
  all_goals simp [enqueueLink_fst, edLinkAdmin_redirs]

theorem processLink_nextPathId (cx : LinkCtx) (ed : Bool)
    (st : ScrapeDb × List Url) (a : ATag) :
    (processLink cx ed st a).1.nextPathId = st.1.nextPathId := by
  simp only [processLink]
  repeat' split
  all_goals simp [enqueueLink_fst, edLinkAdmin_nextPathId]

theorem foldl_processLink_preserves (cx : LinkCtx) (ed : Bool)
    (links : List ATag) :
    ∀ st : ScrapeDb × List Url,
      (links.foldl (processLink cx ed) st).1.paths = st.1.paths ∧
      (links.foldl (processLink cx ed) st).1.pages = st.1.pages ∧
      (links.foldl (processLink cx ed) st).1.redirs = st.1.redirs ∧
      (links.foldl (processLink cx ed) st).1.nextPathId = st.1.nextPathId := by
  induction links with
  | nil => intro st; exact ⟨rfl, rfl, rfl, rfl⟩
  | cons a as ih =>
    intro st
    rw [List.foldl_cons]
    have h1 := ih (processLink cx ed st a)
    refine ⟨h1.1.trans ?_, h1.2.1.trans ?_, h1.2.2.1.trans ?_, h1.2.2.2.trans ?_⟩
    · exact processLink_paths cx ed st a
    · exact processLink_pages cx ed st a
    · exact processLink_redirs cx ed st a
    · exact processLink_nextPathId cx ed st a

theorem linkPhase_preserves (cx : LinkCtx) (body : Body) (db : ScrapeDb)
    (todo : List Url) :
    (linkPhase cx body db todo).1.paths = db.paths ∧
    (linkPhase cx body db todo).1.pages = db.pages ∧
    (linkPhase cx body db todo).1.redirs = db.redirs ∧
    (linkPhase cx body db todo).1.nextPathId = db.nextPathId := by
  simp only [linkPhase]
  have h3 := foldl_processLink_preserves cx false body.rstLinks
    (body.autLinks.foldl (processLink cx false)
      (body.edLinks.foldl (processLink cx true) (db, todo)))
  have h2 := foldl_processLink_preserves cx false body.autLinks
    (body.edLinks.foldl (processLink cx true) (db, todo))
  have h1 := foldl_processLink_preserves cx true body.edLinks (db, todo)
  exact ⟨(h3.1.trans h2.1).trans h1.1, (h3.2.1.trans h2.2.1).trans h1.2.1,
    (h3.2.2.1.trans h2.2.2.1).trans h1.2.2.1,
    (h3.2.2.2.trans h2.2.2.2).trans h1.2.2.2⟩

theorem requestLoop_direct (net : Url → Fetch) (ujoin : Url → String → Url)
    (rootUrl : Url) (fuel : Nat) (u : Url) (done : List Url) (rs : List Redir)
    (r : HttpResp) (hnet : net u = .resp r) (h200 : r.status = 200)
    (href : r.body.refresh = none) :
    requestLoop net ujoin rootUrl (fuel + 1) u done rs =
      (.term u r.body r.raw, insertUrl done u, rs) := by
  simp [requestLoop, hnet, h200, href]

theorem scrape_page_direct_store (net : Url → Fetch) (ujoin : Url → String → Url)
    (rootUrl : Url) (fuel : Nat) (u : Url) (st : VisitState) (r : HttpResp)
    (m c p : String)
    (hnet : net u = .resp r) (h200 : r.status = 200)
    (hrefresh : r.body.refresh = none)
    (hscope : chStarts u rootUrl = true)
    (hwcm : r.body.wcm = some m) (hc : ujoin u m = c) (hcu : c ≠ u)
    (hp : splitIndex1 c rootUrl = some p)
    (hfresh : st.db.paths.find? (fun row => row.2 == p) = none) :
    (scrape_page net ujoin rootUrl (fuel + 1) u st).1 = .wcm c ∧
    (scrape_page net ujoin rootUrl (fuel + 1) u st).2.db.paths =
      st.db.paths ++ [(st.db.nextPathId, p)] ∧
    (scrape_page net ujoin rootUrl (fuel + 1) u st).2.db.pages =
      st.db.pages ++ [(st.db.nextPathId, r.raw)] ∧
    (scrape_page net ujoin rootUrl (fuel + 1) u st).2.db.redirs =
      insertRedir st.db.redirs ⟨u, c, "alias"⟩ ∧
    (scrape_page net ujoin rootUrl (fuel + 1) u st).2.db.nextPathId =
      st.db.nextPathId + 1 ∧
    (scrape_page net ujoin rootUrl (fuel + 1) u st).2.done =
      insertUrl (insertUrl st.done u) c := by
  have hbne : (c != u) = true := by simp [hcu]
  unfold scrape_page
  rw [requestLoop_direct net ujoin rootUrl fuel u st.done st.db.redirs r hnet
    h200 hrefresh]
  simp only [hscope, if_true, wcmResolve, hwcm, hc, hbne]
  rw [hp]
  simp only [save_page]
  rw [hfresh]
  have hlp := linkPhase_preserves
    ⟨net, ujoin, rootUrl, u,  c, st.db.nextPathId,
      insertUrl (insertUrl st.done u) c⟩ r.body
    { st.db with
        redirs := insertRedir st.db.redirs ⟨u, c, "alias"⟩
        paths := st.db.paths ++ [(st.db.nextPathId, p)]
        pages := st.db.pages ++ [(st.db.nextPathId, r.raw)]
        nextPathId := st.db.nextPathId + 1 }
    st.todo
  refine ⟨rfl, ?_, ?_, ?_, ?_, rfl⟩
  · exact hlp.1
  · exact hlp.2.1
  · exact hlp.2.2.1
  · exact hlp.2.2.2

theorem scrape_page_direct_dup (net : Url → Fetch) (ujoin : Url → String → Url)
    (rootUrl : Url) (fuel : Nat) (u : Url) (st : VisitState) (r : HttpResp)
    (m c p : String) (q : Nat × String)
    (hnet : net u = .resp r) (h200 : r.status = 200)
    (hrefresh : r.body.refresh = none)
    (hscope : chStarts u rootUrl = true)
    (hwcm : r.body.wcm = some m) (hc : ujoin u m = c) (hcu : c ≠ u)
    (hp : splitIndex1 c rootUrl = some p)
    (hdup : st.db.paths.find? (fun row => row.2 == p) = some q) :
    (scrape_page net ujoin rootUrl (fuel + 1) u st).1 = .noneRes ∧
    (scrape_page net ujoin rootUrl (fuel + 1) u st).2.db =
      { st.db with redirs := insertRedir st.db.redirs ⟨u, c, "alias"⟩ } ∧
    (scrape_page net ujoin rootUrl (fuel + 1) u st).2.done =
      insertUrl (insertUrl st.done u) c ∧
    (scrape_page net ujoin rootUrl (fuel + 1) u st).2.todo = st.todo := by
  have hbne : (c != u) = true := by simp [hcu]
  unfold scrape_page
  rw [requestLoop_direct net ujoin rootUrl fuel u st.done st.db.redirs r hnet
    h200 hrefresh]
  simp only [hscope, if_true, wcmResolve, hwcm, hc, hbne]
  rw [hp]
  simp only [save_page]
  rw [hdup]
  exact ⟨rfl, rfl, rfl, rfl⟩

theorem mem_insertRedir {rs : List Redir} {r x : Redir}
    (h : x ∈ insertRedir rs r) : x ∈ rs ∨ x = r := by
  unfold insertRedir at h
  split at h
  · exact Or.inl h
  · rcases List.mem_append.1 h with h | h
    · exact Or.inl h
    · exact Or.inr (List.mem_singleton.1 h)

/-! ## Concrete networks used for counterexamples and witnesses -/

/-- The identity as `urljoin`: adequate when all hrefs are absolute. -/
def ujId : Url → String → Url := fun _ s => s

/-- A network on which every request raises a connection error. -/
def netRaises : Url → Fetch := fun _ => Fetch.raise "connection error"

/-- A network answering every request with a 303 redirect into scope. -/
def net303 : Url → Fetch := fun _ =>
  .resp ⟨303, "https://w/r/y", emptyBody, ""⟩

/-- A network where `/a` 301-redirects to the in-scope `/x`, which
answers 200 with a plain page. -/
def netRedirectChain : Url → Fetch := fun u =>
  if u == "https://w/r/a" then .resp ⟨301, "https://w/r/x", emptyBody, ""⟩
  else .resp ⟨200, "", emptyBody, ""⟩

/-- A network answering every request with a 200 page whose canonical
identifier meta tag points at `/c`. -/
def netAliasPair : Url → Fetch := fun _ =>
  .resp ⟨200, "", ⟨none, some "https://w/r/c", [], [], []⟩, "doc"⟩

/-- A network answering every request with a 200 page whose editorial
tree holds one in-scope link. -/
def netOnePage : Url → Fetch := fun _ =>
  .resp ⟨200, "", ⟨none, none, [⟨"https://w/r/l", "text"⟩], [], []⟩, "page"⟩

/-! ## Identity unifier: sync_page_ids (scraper_lib.py lines 1424-1515) -/

/-- The master registry table `mst_wcm_paths` (page_id INTEGER PRIMARY
KEY AUTOINCREMENT, path TEXT NOT NULL UNIQUE) of the master database
(created in `create_master_db`, lines 2703-2707). -/
structure MasterPaths where
  rows : List (Nat × String)
  nextId : Nat
  deriving DecidableEq, Repr

/-- AUTOINCREMENT assignment of fresh ids to newly inserted paths. -/
def assignIds (start : Nat) : List String → List (Nat × String)
  | [] => []
  | p :: rest => (start, p) :: assignIds (start + 1) rest

/-- The only statement of `sync_page_ids` that touches the master
database (lines 1459-1470): `INSERT INTO mst_wcm_paths (path) SELECT
path FROM new_scr_pages`, where `new_scr_pages` are the scrape paths
absent from `mst_wcm_paths`, ordered by path.  The later id-rewrite
loop (lines 1496-1509) updates `_id` columns of tables listed in the
unqualified `sqlite_master`, which resolves to the main database — the
scrape database — so no master table is written there. -/
def sync_page_ids (mst : MasterPaths) (scrPaths : List String) : MasterPaths :=
  let newPaths := List.mergeSort
    (scrPaths.filter (fun p => !(mst.rows.any (fun r => r.2 == p))))
    (fun a b : String => decide (a ≤ b))
  ⟨mst.rows ++ assignIds mst.nextId newPaths, mst.nextId + newPaths.length⟩

/-- Looking a path up in the master registry. -/
def lookupPathId (mst : MasterPaths) (p : String) : Option Nat :=
  (mst.rows.find? (fun r => r.2 == p)).map (·.1)

theorem mem_assignIds {start : Nat} {paths : List String}
    {row : Nat × String} (h : row ∈ assignIds start paths) :
    row.2 ∈ paths := by
  induction paths generalizing start with
  | nil => cases h
  | cons p rest ih =>
    cases h with
    | head => exact List.mem_cons_self _ _
    | tail _ h => exact List.mem_cons_of_mem _ (ih h)

/-! ## Content classifier: split_tree (scraper_lib.py lines 807-905)

The parsed page is a rose tree of tags and text nodes.  BeautifulSoup's
destructive `extract()` calls are modelled by pure functions returning
the tree with the matched subtree removed together with the extracted
subtree.  The `<html>` root is kept apart (its attributes in `Doc`); the
find calls of `split_tree` search the descendants of the root, matching
how the code's markers (head, header, footer, marked divs) occur below
the `<html>` tag. -/

/-- A node of the parsed page: a tag with attributes and children, or a
text node. -/
inductive Node where
  | tag (name : String) (attrs : List (String × String)) (children : List Node)
  | text (s : String)

/-- A document: the `<html>` root's attributes and its children. -/
structure Doc where
  attrs : List (String × String)
  children : List Node

/-- Whitespace-separated words of an attribute value (BeautifulSoup
treats `class` as a multi-valued attribute split on whitespace). -/
def wordsAux : List Char → List Char → List (List Char)
  | [], acc => if acc.isEmpty then [] else [acc.reverse]
  | c :: rest, acc =>
    if c.isWhitespace then
      if acc.isEmpty then wordsAux rest [] else acc.reverse :: wordsAux rest []
    else wordsAux rest (c :: acc)

/-- The word list of a string. -/
def chWords (s : String) : List String := (wordsAux s.data []).map (fun l => ⟨l⟩)

/-- The value of an attribute. -/
def attrVal (attrs : List (String × String)) (k : String) : Option String :=
  (attrs.find? (fun a => a.1 == k)).map (·.2)

/-- Class membership (`class_=...` in BeautifulSoup). -/
def hasClassAttr (attrs : List (String × String)) (c : String) : Bool :=
  match attrVal attrs "class" with
  | some s => (chWords s).contains c
  | none => false

/-- `find(name)`. -/
def pNamed (name : String) : Node → Bool
  | .tag n _ _ => n == name
  | .text _ => false

/-- `find('div', id=...)`. -/
def pDivId (i : String) : Node → Bool
  | .tag n a _ => n == "div" && attrVal a "id" == some i
  | .text _ => false

/-- `find(class_=...)` on any tag. -/
def pClass (c : String) : Node → Bool
  | .tag _ a _ => hasClassAttr a c
  | .text _ => false

/-- `find('div', class_=...)`. -/
def pDivClass (c : String) : Node → Bool
  | .tag n a _ => n == "div" && hasClassAttr a c
  | .text _ => false

/-- `tree('body', attrs={'data-pagetype': 'bld-overview'})`. -/
def pBodyOverview : Node → Bool
  | .tag n a _ => n == "body" && attrVal a "data-pagetype" == some "bld-overview"
  | .text _ => false

/-- Extract the first node (preorder) matching `p`: the forest with the
subtree removed and the subtree, or `none` when nothing matches. -/
def exFirstF (p : Node → Bool) : List Node → Option (List Node × Node)
  | [] => none
  | n :: rest =>
    if p n then some (rest, n)
    else
      match n with
      | .text s =>
        match exFirstF p rest with
        | some (rest', x) => some (.text s :: rest', x)
        | none => none
      | .tag nm a cs =>
        match exFirstF p cs with
        | some (cs', x) => some (.tag nm a cs' :: rest, x)
        | none =>
          match exFirstF p rest with
          | some (rest', x) => some (.tag nm a cs :: rest', x)
          | none => none

/-- Extract every node matching `p` (`find_all` + `extract()` on each
match): matched subtrees are listed in preorder, a match nested inside
another extracted match is split out as its own entry — exactly what
extracting each element of a `find_all` result does. -/
def exAllF (p : Node → Bool) : List Node → List Node × List Node
  | [] => ([], [])
  | n :: rest =>
    match n with
    | .text s =>
      let r := exAllF p rest
      (.text s :: r.1, r.2)
    | .tag nm a cs =>
      let rc := exAllF p cs
      let rr := exAllF p rest
      if p n then (rr.1, .tag nm a rc.1 :: (rc.2 ++ rr.2))
      else (.tag nm a rc.1 :: rr.1, rc.2 ++ rr.2)

/-- `tree.body.header.extract()` and friends: locate the first node
matching `po` (preorder; the search commits to it), then extract the
first of its descendants matching `pin`.  Returns the rewritten forest,
the extracted subtree if any, and whether an outer node was found. -/
def exInFirst (po pin : Node → Bool) : List Node → List Node × Option Node × Bool
  | [] => ([], none, false)
  | n :: rest =>
    match n with
    | .text s =>
      let r := exInFirst po pin rest
      (.text s :: r.1, r.2.1, r.2.2)
    | .tag nm a cs =>
      if po n then
        match exFirstF pin cs with
        | some (cs', x) => (.tag nm a cs' :: rest, some x, true)
        | none => (.tag nm a cs :: rest, none, true)
      else
        match exInFirst po pin cs with
        | (cs', xo, true) => (.tag nm a cs' :: rest, xo, true)
        | (_, _, false) =>
          let rr := exInFirst po pin rest
          (.tag nm a cs :: rr.1, rr.2.1, rr.2.2)

/-- Does any node of the forest match `p`? -/
def existsTag (p : Node → Bool) : List Node → Bool
  | [] => false
  | n :: rest =>
    match n with
    | .text _ => existsTag p rest
    | .tag _ _ cs => p n || existsTag p cs || existsTag p rest

/-- `tree.html['tree'] = v`: set or add an attribute on the root. -/
def setAttr (attrs : List (String × String)) (k v : String) :
    List (String × String) :=
  if attrs.any (fun a => a.1 == k) then
    attrs.map (fun a => if a.1 == k then (k, v) else a)
  else attrs ++ [(k, v)]

/-- One first-match extraction step, appending the extracted subtree to
the collected rest children. -/
def stepFirst (p : Node → Bool) (st : List Node × List Node) :
    List Node × List Node :=
  match exFirstF p st.1 with
  | some (f', x) => (f', st.2 ++ [x])
  | none => st

/-- One `tree.body.<inner>.extract()` step. -/
def stepInBody (pin : Node → Bool) (st : List Node × List Node) :
    List Node × List Node :=
  let r := exInFirst (pNamed "body") pin st.1
  match r.2.1 with
  | some x => (r.1, st.2 ++ [x])
  | none => (r.1, st.2)

/-- One extract-all step. -/
def stepAll (p : Node → Bool) (st : List Node × List Node) :
    List Node × List Node :=
  let r := exAllF p st.1
  (r.1, st.2 ++ r.2)

/-- Model of `split_tree` (lines 807-905): move head, header and footer
(below body), the no-javascript div, the sub-navigation, the feedback
block, the readspeaker divs and the virtual-assistant modals into the
rest doc; then either route everything remaining to the automated doc
(pages typed `bld-overview`) or extract the `content_add` divs into the
automated doc and leave the remainder as the editorial doc. -/
def split_tree (d : Doc) : Doc × Doc × Doc :=
  let st := stepFirst (pNamed "head") (d.children, [])
  let st := stepInBody (pNamed "header") st
  let st := stepInBody (pNamed "footer") st
  let st := stepFirst (pDivId "bld-nojs") st
  let st := stepFirst (pClass "bld-subnavigatie") st
  let st := stepFirst (pClass "bld-feedback") st
  let st := stepAll (pDivClass "rs_skip") st
  let st := stepAll (pDivId "vaModal") st
  let rst : Doc := ⟨[("tree", "rest")], st.2⟩
  if existsTag pBodyOverview st.1 then
    (⟨[("tree", "editorial")], []⟩,
     ⟨setAttr d.attrs "tree" "automated", st.1⟩,
     rst)
  else
    let ra := exAllF (pDivClass "content_add") st.1
    (⟨setAttr d.attrs "tree" "editorial", ra.1⟩,
     ⟨[("tree", "automated")], ra.2⟩,
     rst)

/-- The identity of one node occurrence: its tag name and attributes,
or its text. -/
inductive NLabel where
  | tagL (name : String) (attrs : List (String × String))
  | textL (s : String)
  deriving DecidableEq, Repr

/-- The multiset of node labels of a forest (one entry per node of
every subtree). -/
def labelsF : List Node → Multiset NLabel
  | [] => 0
  | .text s :: rest => NLabel.textL s ::ₘ labelsF rest
  | .tag n a cs :: rest => NLabel.tagL n a ::ₘ (labelsF cs + labelsF rest)



/-- The labels of a single node's subtree. -/
def labelsN : Node → Multiset NLabel
  | .text s => {NLabel.textL s}
  | .tag n a cs => NLabel.tagL n a ::ₘ labelsF cs

theorem labelsF_nil : labelsF [] = 0 := by
  simp [labelsF]

theorem labelsF_cons (n : Node) (rest : List Node) :
    labelsF (n :: rest) = labelsN n + labelsF rest := by
  cases n <;>
    (simp only [labelsF, labelsN, ← Multiset.singleton_add]; try abel)

theorem labelsF_append (l1 l2 : List Node) :
    labelsF (l1 ++ l2) = labelsF l1 + labelsF l2 := by
  induction l1 with
  | nil => simp [labelsF]
  | cons n l1 ih =>
    rw [List.cons_append, labelsF_cons, labelsF_cons, ih, add_assoc]

theorem exFirstF_labels_elim (p : Node → Bool) (l : List Node) :
    (exFirstF p l).elim True
      (fun r => labelsF r.1 + labelsN r.2 = labelsF l) := by
  induction l using exFirstF.induct p
  all_goals try simp_all [exFirstF, labelsF_cons]
  case case2 n rest h =>
    rw [exFirstF.eq_def]
    cases n <;> simp_all [labelsF_cons] <;> abel
  case case3 rest s rest' x hx hp ih =>
    rw [add_assoc, ih]
  case case5 rest nm a cs rest' x hx hp ih =>
    simp only [labelsN, ← Multiset.singleton_add]
    rw [← ih]
    abel
  case case6 rest nm a cs hcs rest' x hx hp ih =>
    rw [add_assoc, ih]

theorem exAllF_labels (p : Node → Bool) (l : List Node) :
    labelsF (exAllF p l).1 + labelsF (exAllF p l).2 = labelsF l := by
  induction l using exAllF.induct p
  all_goals try simp_all [exAllF, labelsF_cons, labelsF_append]
  case case1 => exact labelsF_nil
  case case2 rest s ih =>
    rw [add_assoc, ih]
  case case3 rest nm a cs hp ihc ihr =>
    simp only [labelsN, ← Multiset.singleton_add]
    rw [← ihc, ← ihr]
    abel
  case case4 rest nm a cs hp ihc ihr =>
    simp only [labelsN, ← Multiset.singleton_add]
    rw [← ihc, ← ihr]
    abel

theorem exInFirst_labels (po pin : Node → Bool) (l : List Node) :
    labelsF (exInFirst po pin l).1 +
      ((exInFirst po pin l).2.1.elim 0 labelsN) = labelsF l := by
  induction l using exInFirst.induct po pin
  all_goals try simp_all [exInFirst, labelsF_cons]
  case case2 rest s ih =>
    rw [add_assoc, ih]
  case case3 rest nm a cs rest' x hx hp =>
    have h := exFirstF_labels_elim pin cs
    rw [hx] at h
    simp only [Option.elim] at h
    simp only [labelsN, ← Multiset.singleton_add]
    rw [← h]
    abel
  case case5 rest nm a cs cs' xo hx hp ih =>
    simp only [labelsN, ← Multiset.singleton_add]
    rw [← ih]
    abel
  case case6 rest nm a cs cs' xo hx hp ihc ihr =>
    rw [add_assoc, ihr]

theorem stepFirst_labels (p : Node → Bool) (st : List Node × List Node) :
    labelsF (stepFirst p st).1 + labelsF (stepFirst p st).2 =
      labelsF st.1 + labelsF st.2 := by
  unfold stepFirst
  rcases hx : exFirstF p st.1 with _ | ⟨f', x⟩
  · rfl
  · have h := exFirstF_labels_elim p st.1
    rw [hx] at h
    simp only [Option.elim] at h
    simp only [labelsF_append, labelsF_cons, labelsF_nil]
    rw [← h]
    abel

theorem stepInBody_labels (pin : Node → Bool) (st : List Node × List Node) :
    labelsF (stepInBody pin st).1 + labelsF (stepInBody pin st).2 =
      labelsF st.1 + labelsF st.2 := by
  unfold stepInBody
  dsimp only
  have h := exInFirst_labels (pNamed "body") pin st.1
  rcases hx : (exInFirst (pNamed "body") pin st.1).2.1 with _ | x
  · rw [hx] at h
    dsimp only
    simp only [Option.elim, add_zero] at h
    simp only [h]
  · rw [hx] at h
    dsimp only
    simp only [Option.elim] at h
    simp only [labelsF_append, labelsF_cons, labelsF_nil]
    rw [← h]
    abel

theorem stepAll_labels (p : Node → Bool) (st : List Node × List Node) :
    labelsF (stepAll p st).1 + labelsF (stepAll p st).2 =
      labelsF st.1 + labelsF st.2 := by
  unfold stepAll
  have h := exAllF_labels p st.1
  simp only [labelsF_append]
  rw [← h]
  abel

def docSample : Doc :=
  ⟨[], [
    .tag "head" [] [.tag "title" [] [.text "T"]],
    .tag "body" [] [
      .tag "header" [] [.text "H"],
      .tag "div" [("class", "content_add")] [.text "auto"],
      .tag "p" [] [.text "ed"],
      .tag "footer" [] []]]⟩

end Scraper

namespace Scraper

/-- C10: the four falsy values `0`, `""`, `False` and `None` never write:
`parameter` leaves the table unchanged and instead performs a read,
returning the stored value coerced through `int`/`float`, or `None` when
the name is absent.  Hence no parameter can be set to a falsy value
through this interface. -/
theorem parameter_falsy_never_writes (t : ParamTable) (name : String) (v : PVal)
    (h : v = .vint 0 ∨ v = .vstr "" ∨ v = .vbool false ∨ v = .vnone) :
    (parameter t name v).2 = t ∧
    (parameter t name v).1 =
      (match lookupParam t name with
       | none => PVal.vnone
       | some s => coerceParamText s) := by
  have hfalse : pyTruthy v = false := by
    rcases h with h | h | h | h <;> subst h <;> rfl
  unfold parameter
  rw [hfalse]
  simp only [Bool.false_eq_true, if_false]
  cases lookupParam t name <;> exact ⟨rfl, rfl⟩

/-- Witness for `parameter_falsy_never_writes`: calling with value `0`
on a table storing `x = "42"` leaves the table unchanged and returns the
stored value coerced to the integer 42. -/
theorem parameter_falsy_never_writes_witness :
    (parameter [("x", "42")] "x" (.vint 0)).2 = [("x", "42")] ∧
    (parameter [("x", "42")] "x" (.vint 0)).1 =
      (match lookupParam [("x", "42")] "x" with
       | none => PVal.vnone
       | some s => coerceParamText s) :=
  parameter_falsy_never_writes [("x", "42")] "x" (.vint 0) (Or.inl rfl)

/-- C1: a connection error (or timeout) raised by `requests.get` inside
the request loop of `scrape_page` is not caught: the visit propagates
the exception with the url left unmarked (`urls_done` unchanged), and
the crawl loop of `scrape_site` aborts with that error instead of
continuing — contradicting the fail-soft claim.  (The non-200/301/302
status path is fail-soft; the raised-exception path is not.) -/
theorem scrape_page_connection_error_aborts_crawl :
    scrape_site_loop netRaises ujId "https://w/r" 9 5
      ["https://w/r/a"] [] emptyDb 15000 0 =
      Except.error "connection error" ∧
    scrape_page netRaises ujId "https://w/r" 9 "https://w/r/a"
      ⟨[], [], emptyDb⟩ =
      (VisitRes.exc "connection error", ⟨[], [], emptyDb⟩) := by
  constructor <;> rfl

/-- C6 counterexample: a 303 response whose `Location` begins with the
root scope is handled by the `unexpected response` branch of the
request loop — no server-redirect record is stored (the redirs table
stays empty) and the loop ends in a failure instead of continuing with
the `Location` target.  The claim that every 3xx status is followed is
therefore false. -/
theorem requestLoop_ignores_303 :
    chStarts "https://w/r/y" "https://w/r" = true ∧
    requestLoop net303 ujId "https://w/r" 2 "https://w/r/a" [] [] =
      (.failed, ["https://w/r/a"], []) := by
  constructor <;> rfl

/-- C6 amended: inside one visit's request loop, every HTTP **301 or
302** response (not every 3xx: 303/307/308 land in the failure branch)
whose `Location` begins with the root scope has a server-redirect
record `(requested url, Location url)` stored — provided no redirect
from the same requested url is recorded yet, the table being unique on
the requested url — and the loop continues by requesting the
`Location` target; a 200 response carrying a client-side refresh
directive with an in-scope target is likewise recorded as a `client`
redirect and followed. -/
theorem requestLoop_follows_301_302_and_refresh (net : Url → Fetch)
    (ujoin : Url → String → Url) (rootUrl : Url) (fuel : Nat) (u : Url)
    (done : List Url) (rs : List Redir) (r : HttpResp)
    (hnet : net u = .resp r)
    (hfresh : ∀ x ∈ rs, x.req ≠ u) :
    ((r.status = 301 ∨ r.status = 302) → chStarts r.location rootUrl = true →
      requestLoop net ujoin rootUrl (fuel + 1) u done rs =
        requestLoop net ujoin rootUrl fuel r.location (insertUrl done u)
          (rs ++ [⟨u, r.location, toString r.status⟩])) ∧
    (r.status = 200 → ∀ t, r.body.refresh = some t →
      chStarts (ujoin u t) rootUrl = true →
      requestLoop net ujoin rootUrl (fuel + 1) u done rs =
        requestLoop net ujoin rootUrl fuel (ujoin u t) (insertUrl done u)
          (rs ++ [⟨u, ujoin u t, "client"⟩])) := by
  have hins : ∀ d k, insertRedir rs ⟨u, d, k⟩ = rs ++ [⟨u, d, k⟩] := by
    intro d k
    exact insertRedir_fresh rs ⟨u, d, k⟩ hfresh
  constructor
  · intro hst hloc
    rcases hst with h | h <;>
      simp [requestLoop, hnet, h, hloc, hins]
  · intro hst t href hloc
    simp [requestLoop, hnet, hst, href, hloc, hins]

/-- Witness for `requestLoop_follows_301_302_and_refresh`: on the
concrete network where `/a` 301-redirects to the in-scope `/x`, one
loop step records the redirect and continues with `/x`. -/
theorem requestLoop_follows_301_302_and_refresh_witness :
    requestLoop netRedirectChain ujId "https://w/r" 3 "https://w/r/a" [] [] =
      requestLoop netRedirectChain ujId "https://w/r" 2 "https://w/r/x"
        (insertUrl [] "https://w/r/a")
        ([] ++ [⟨"https://w/r/a", "https://w/r/x", toString 301⟩]) :=
  (requestLoop_follows_301_302_and_refresh netRedirectChain ujId "https://w/r"
      2 "https://w/r/a" [] [] ⟨301, "https://w/r/x", emptyBody, ""⟩
      (by rfl) (by simp)).1 (Or.inl rfl) (by rfl)

/-- C9 counterexample: the frontier sets do not stay disjoint.  Starting
from disjoint sets (`done` = ∅, `todo` = the queued url `/x`), a visit
of `/a` whose fetch 301-redirects to `/x` adds `/x` to `urls_done`
inside the request loop without removing it from `urls_todo`, so after
the visit `/x` lies in both sets. -/
theorem frontier_sets_intersect_after_redirect_visit :
    "https://w/r/x" ∈ (scrape_page netRedirectChain ujId "https://w/r" 3
      "https://w/r/a" ⟨[], ["https://w/r/x"], emptyDb⟩).2.todo ∧
    "https://w/r/x" ∈ (scrape_page netRedirectChain ujId "https://w/r" 3
      "https://w/r/a" ⟨[], ["https://w/r/x"], emptyDb⟩).2.done := by
  decide

/-- C9 amended: what `scrape_page` does guarantee is that every url it
*adds* to `urls_todo` is absent from `urls_done` as left by the visit
(the link loop checks `urls_done` before every addition, and
`urls_done` is not modified after the request loop and wcm phase).
Disjointness can only be broken by urls already queued in `urls_todo`
that the request loop or wcm aliasing marks done without dequeuing. -/
theorem scrape_page_new_todo_not_done (net : Url → Fetch)
    (ujoin : Url → String → Url) (rootUrl : Url) (fuel : Nat) (reqUrl : Url)
    (st : VisitState) (x : Url)
    (hx : x ∈ (scrape_page net ujoin rootUrl fuel reqUrl st).2.todo) :
    x ∈ st.todo ∨ x ∉ (scrape_page net ujoin rootUrl fuel reqUrl st).2.done := by
  unfold scrape_page at hx ⊢
  rcases hreq : requestLoop net ujoin rootUrl fuel reqUrl st.done st.db.redirs
    with ⟨le, done', rs'⟩
  rw [hreq] at hx
  cases le with
  | exc m => exact Or.inl hx
  | failed => exact Or.inl hx
  | offScope => exact Or.inl hx
  | spin => exact Or.inl hx
  | term url body raw =>
    by_cases hscope : chStarts url rootUrl = true
    · simp only [hscope, if_true] at hx ⊢
      generalize hsplit :
        splitIndex1 (wcmResolve ujoin url body.wcm rs' done').1 rootUrl = osplit
        at hx ⊢
      cases osplit with
      | none => exact Or.inl hx
      | some wcmPath =>
        dsimp only at hx ⊢
        generalize hsave : (save_page
          { st.db with redirs := (wcmResolve ujoin url body.wcm rs' done').2.1 }
          wcmPath raw).1 = osave at hx ⊢
        cases osave with
        | none => exact Or.inl hx
        | some pid =>
          dsimp only at hx ⊢
          rcases linkPhase_todo _ body _ st.todo x hx with h | h
          · exact Or.inl h
          · exact Or.inr h
    · simp only [hscope, Bool.false_eq_true, if_false] at hx ⊢
      exact Or.inl hx

/-- Witness for `scrape_page_new_todo_not_done`: on the one-page network
the visit of `/a` adds the editorial link `/l` to `urls_todo`, and `/l`
is indeed not in the resulting `urls_done`. -/
theorem scrape_page_new_todo_not_done_witness :
    "https://w/r/l" ∈ (scrape_page netOnePage ujId "https://w/r" 2
      "https://w/r/a" ⟨[], [], emptyDb⟩).2.todo ∧
    ("https://w/r/l" ∈ ([] : List Url) ∨
      "https://w/r/l" ∉ (scrape_page netOnePage ujId "https://w/r" 2
        "https://w/r/a" ⟨[], [], emptyDb⟩).2.done) :=
  ⟨by decide,
   scrape_page_new_todo_not_done netOnePage ujId "https://w/r" 2
     "https://w/r/a" ⟨[], [], emptyDb⟩ "https://w/r/l" (by decide)⟩

/-- C4: duplicate canonical paths.  When two different requested urls
resolve (here: directly, via their `DCTERMS.identifier` markers) to the
same canonical wcm url `c` with path `p`, exactly one row for `p` exists
in the pages/paths tables after both visits — the second `save_page`
signals the duplicate with a `None` page id, making the visit a no-op
that returns `None` — and an `alias` Redirect row links the non-winning
terminal response url `u2` to the canonical url `c` (provided `u2`
differs from `c` and carries no earlier redirect record, the redirs
table being unique on the requested url). -/
theorem duplicate_canonical_path (net : Url → Fetch)
    (ujoin : Url → String → Url) (rootUrl : Url) (fuel : Nat)
    (u1 u2 : Url) (st0 : VisitState) (r1 r2 : HttpResp) (m1 m2 c p : String)
    (h1net : net u1 = .resp r1) (h1s : r1.status = 200)
    (h1r : r1.body.refresh = none) (h1scope : chStarts u1 rootUrl = true)
    (h1wcm : r1.body.wcm = some m1) (h1c : ujoin u1 m1 = c) (hcu1 : c ≠ u1)
    (h2net : net u2 = .resp r2) (h2s : r2.status = 200)
    (h2r : r2.body.refresh = none) (h2scope : chStarts u2 rootUrl = true)
    (h2wcm : r2.body.wcm = some m2) (h2c : ujoin u2 m2 = c) (hcu2 : c ≠ u2)
    (hp : splitIndex1 c rootUrl = some p)
    (hfresh : st0.db.paths.find? (fun row => row.2 == p) = none)
    (hnoredir : ∀ x ∈ st0.db.redirs, x.req ≠ u2)
    (hu12 : u1 ≠ u2) :
    (scrape_page net ujoin rootUrl (fuel + 1) u2
        (scrape_page net ujoin rootUrl (fuel + 1) u1 st0).2).1 = .noneRes ∧
    ((scrape_page net ujoin rootUrl (fuel + 1) u2
        (scrape_page net ujoin rootUrl (fuel + 1) u1 st0).2).2.db.paths.filter
      (fun row => row.2 == p)).length = 1 ∧
    (scrape_page net ujoin rootUrl (fuel + 1) u2
        (scrape_page net ujoin rootUrl (fuel + 1) u1 st0).2).2.db.pages =
      (scrape_page net ujoin rootUrl (fuel + 1) u1 st0).2.db.pages ∧
    Redir.mk u2 c "alias" ∈ (scrape_page net ujoin rootUrl (fuel + 1) u2
        (scrape_page net ujoin rootUrl (fuel + 1) u1 st0).2).2.db.redirs := by
  obtain ⟨S1, Spaths, Spages, Sredirs, Snid, Sdone⟩ :=
    scrape_page_direct_store net ujoin rootUrl fuel u1 st0 r1 m1 c p
      h1net h1s h1r h1scope h1wcm h1c hcu1 hp hfresh
  set st1 := (scrape_page net ujoin rootUrl (fuel + 1) u1 st0).2 with hst1
  have hdup : st1.db.paths.find? (fun row => row.2 == p) =
      some (st0.db.nextPathId, p) := by
    rw [Spaths, List.find?_append, hfresh]
    simp
  obtain ⟨D1, Ddb, Ddone, Dtodo⟩ :=
    scrape_page_direct_dup net ujoin rootUrl fuel u2 st1 r2 m2 c p
      (st0.db.nextPathId, p) h2net h2s h2r h2scope h2wcm h2c hcu2 hp hdup
  have hnil : st0.db.paths.filter (fun row => row.2 == p) = [] := by
    rw [List.filter_eq_nil_iff]
    intro a ha
    have := List.find?_eq_none.mp hfresh a ha
    simpa using this
  refine ⟨D1, ?_, ?_, ?_⟩
  · rw [Ddb]
    dsimp only
    rw [Spaths, List.filter_append, hnil]
    simp
  · rw [Ddb]
  · rw [Ddb]
    dsimp only
    have hfresh2 : ∀ x ∈ st1.db.redirs, x.req ≠ u2 := by
      rw [Sredirs]
      intro x hx
      rcases mem_insertRedir hx with h | h
      · exact hnoredir x h
      · subst h
        simpa using hu12
    rw [insertRedir_fresh _ _ hfresh2]
    exact List.mem_append_right _ (List.mem_singleton.mpr rfl)

/-- Witness for `duplicate_canonical_path`: the two concrete visits of
`/a` and `/b`, both aliasing to `/c`, on the `netAliasPair` network. -/
theorem duplicate_canonical_path_witness :
    (scrape_page netAliasPair ujId "https://w/r" 2 "https://w/r/b"
        (scrape_page netAliasPair ujId "https://w/r" 2 "https://w/r/a"
          ⟨[], [], emptyDb⟩).2).1 = .noneRes ∧
    ((scrape_page netAliasPair ujId "https://w/r" 2 "https://w/r/b"
        (scrape_page netAliasPair ujId "https://w/r" 2 "https://w/r/a"
          ⟨[], [], emptyDb⟩).2).2.db.paths.filter
      (fun row => row.2 == "/c")).length = 1 ∧
    (scrape_page netAliasPair ujId "https://w/r" 2 "https://w/r/b"
        (scrape_page netAliasPair ujId "https://w/r" 2 "https://w/r/a"
          ⟨[], [], emptyDb⟩).2).2.db.pages =
      (scrape_page netAliasPair ujId "https://w/r" 2 "https://w/r/a"
        ⟨[], [], emptyDb⟩).2.db.pages ∧
    Redir.mk "https://w/r/b" "https://w/r/c" "alias" ∈
      (scrape_page netAliasPair ujId "https://w/r" 2 "https://w/r/b"
        (scrape_page netAliasPair ujId "https://w/r" 2 "https://w/r/a"
          ⟨[], [], emptyDb⟩).2).2.db.redirs :=
  duplicate_canonical_path netAliasPair ujId "https://w/r" 1
    "https://w/r/a" "https://w/r/b" ⟨[], [], emptyDb⟩
    ⟨200, "", ⟨none, some "https://w/r/c", [], [], []⟩, "doc"⟩
    ⟨200, "", ⟨none, some "https://w/r/c", [], [], []⟩, "doc"⟩
    "https://w/r/c" "https://w/r/c" "https://w/r/c" "/c"
    rfl rfl rfl (by decide) rfl rfl (by decide)
    rfl rfl rfl (by decide) rfl rfl (by decide)
    (by decide) rfl (by intro x hx; cases hx) (by decide)

/-- C5: universal identity stability.  `sync_page_ids` only inserts
paths not yet present in `mst_wcm_paths` and never updates or deletes an
existing row: a path already mapped to an identity keeps exactly that
identity after any later synchronisation, every pre-existing row
survives unchanged, and every row of the resulting registry is either a
pre-existing row or a fresh scrape path that was absent before. -/
theorem sync_page_ids_stable (mst : MasterPaths) (scrPaths : List String)
    (pid : Nat) (p : String)
    (hlook : lookupPathId mst p = some pid) :
    lookupPathId (sync_page_ids mst scrPaths) p = some pid ∧
    (∀ row ∈ mst.rows, row ∈ (sync_page_ids mst scrPaths).rows) ∧
    (∀ row ∈ (sync_page_ids mst scrPaths).rows,
      row ∈ mst.rows ∨
        (row.2 ∈ scrPaths ∧ ∀ r ∈ mst.rows, r.2 ≠ row.2)) := by
  refine ⟨?_, ?_, ?_⟩
  · unfold lookupPathId at hlook ⊢
    simp only [sync_page_ids]
    rw [List.find?_append]
    rcases hf : mst.rows.find? (fun r => r.2 == p) with _ | r
    · rw [hf] at hlook; cases hlook
    · rw [hf] at hlook
      rw [hf, Option.or_some]
      exact hlook
  · intro row hrow
    exact List.mem_append_left _ hrow
  · intro row hrow
    rcases List.mem_append.1 hrow with h | h
    · exact Or.inl h
    · right
      have hmem := mem_assignIds h
      rw [List.mem_mergeSort] at hmem
      rcases List.mem_filter.1 hmem with ⟨hscr, hnot⟩
      refine ⟨hscr, ?_⟩
      have hany : mst.rows.any (fun r => r.2 == row.2) = false := by
        simpa using hnot
      intro r hr
      have h2 := List.any_eq_false.mp hany r hr
      simpa using h2

/-- Witness for `sync_page_ids_stable`: a registry mapping `/a` to id 1,
synchronised against a scrape containing `/b` and `/a`, still maps `/a`
to 1. -/
theorem sync_page_ids_stable_witness :
    lookupPathId (sync_page_ids ⟨[(1, "/a")], 2⟩ ["/b", "/a"]) "/a" = some 1 ∧
    (∀ row ∈ ([(1, "/a")] : List (Nat × String)),
      row ∈ (sync_page_ids ⟨[(1, "/a")], 2⟩ ["/b", "/a"]).rows) ∧
    (∀ row ∈ (sync_page_ids ⟨[(1, "/a")], 2⟩ ["/b", "/a"]).rows,
      row ∈ ([(1, "/a")] : List (Nat × String)) ∨
        (row.2 ∈ ["/b", "/a"] ∧
          ∀ r ∈ ([(1, "/a")] : List (Nat × String)), r.2 ≠ row.2)) :=
  sync_page_ids_stable ⟨[(1, "/a")], 2⟩ ["/b", "/a"] 1 "/a" rfl

/-- C8: content partition completeness.  For every parsed page that has
a `<body>` tag (without one the Python raises on `tree.body.header`),
the three documents returned by `split_tree` carry, between them,
exactly the node occurrences of the original document: counting every
tag/text node of every subtree by its label, editorial + automated +
rest equals the input — no node is lost and none appears in more than
one region.  (The synthetic `<html>` roots of the returned docs and the
mutated `tree` attribute of the original root are held outside the
counted children.) -/
theorem split_tree_partition (d : Doc)
    (_hbody : existsTag (pNamed "body") d.children = true) :
    labelsF (split_tree d).1.children + labelsF (split_tree d).2.1.children +
      labelsF (split_tree d).2.2.children = labelsF d.children := by
  unfold split_tree
  dsimp only
  set s8 := stepAll (pDivId "vaModal") (stepAll (pDivClass "rs_skip")
    (stepFirst (pClass "bld-feedback") (stepFirst (pClass "bld-subnavigatie")
    (stepFirst (pDivId "bld-nojs") (stepInBody (pNamed "footer")
    (stepInBody (pNamed "header")
      (stepFirst (pNamed "head") (d.children, [])))))))) with hs8
  have hchain : labelsF s8.1 + labelsF s8.2 = labelsF d.children := by
    rw [hs8]
    simp only [stepAll_labels, stepFirst_labels, stepInBody_labels]
    simp [labelsF_nil]
  by_cases hov : existsTag pBodyOverview s8.1 = true
  · simp only [hov, if_true]
    simp only [labelsF_nil, zero_add]
    exact hchain
  · simp only [hov, Bool.false_eq_true, if_false]
    rw [exAllF_labels]
    exact hchain

/-- Witness for `split_tree_partition`: a small concrete page with
head, header, footer, an automated block and editorial content. -/
theorem split_tree_partition_witness :
    labelsF (split_tree docSample).1.children +
      labelsF (split_tree docSample).2.1.children +
      labelsF (split_tree docSample).2.2.children = labelsF docSample.children :=
  split_tree_partition docSample (by simp [docSample, existsTag, pNamed])

end Scraper

namespace Scraper

/-! ## History compiler: compile_history (scraper_lib.py lines 1849-2089)

History is compiled per cadence (`weekly`, `monthly`) into the
`page_hist_<cadence>` tables of the master database.  Timestamps
(`yymmdd-hhmm` strings, compared lexicographically which matches
chronology) are modelled as naturals.  The tracked page aspects are the
columns of `pages_info` except `page_id`: ten extracted and two derived
fields. -/

/-- The number of tracked aspects (`_EXTRACTED_FIELDS` +
`_DERIVED_FIELDS`). -/
def numAspects : Nat := 12

/-- An aspect index. -/
abbrev Aspect := Fin numAspects

/-- One row of a `page_hist_<cadence>` table: timestamp, page id, the
sparse aspect columns, and `life`. -/
structure HistRow where
  ts : Nat
  pid : Nat
  aspects : Aspect → Option String
  life : Option Int
  deriving DecidableEq

/-- One page of the snapshot: a row of `pages_info` (the page also sits
in `pages`/`scr_wcm_paths` with the same id). -/
structure SnapPage where
  pid : Nat
  aspects : Aspect → Option String
  deriving DecidableEq

/-- The `last_value(col) OVER (PARTITION BY page_id ORDER BY CASE WHEN
col ISNULL THEN 0 ELSE 1 END, timestamp ROWS BETWEEN UNBOUNDED
PRECEDING AND UNBOUNDED FOLLOWING)` window used throughout
`compile_history`: the value of the column on the latest-timestamped
row of the page where it is non-null, `none` when it is null
everywhere.  (The primary key `(timestamp, page_id)` rules out ties;
the model lets the later row win them.) -/
def lastKnown {α : Type} (hist : List HistRow) (pid : Nat)
    (f : HistRow → Option α) : Option α :=
  (hist.foldl (fun acc r =>
    if r.pid == pid && (f r).isSome then
      match acc with
      | none => some r
      | some b => if b.ts ≤ r.ts then some r else some b
    else acc) none).bind f

/-- The aspect diff `CASE WHEN scr.a = his.a THEN NULL ELSE scr.a END` under SQL
three-valued logic: null when the new value is null, null when both
sides are equal non-nulls, otherwise the new value. -/
def aspectDiff (scrV hisV : Option String) : Option String :=
  match scrV with
  | none => none
  | some v => if hisV = some v then none else some v

/-- The life diff `CASE WHEN his.life < 0 THEN -his.life + 1 ELSE NULL END`. -/
def lifeDiff (hisLife : Option Int) : Option Int :=
  match hisLife with
  | some l => if l < 0 then some (-l + 1) else none
  | none => none

/-- The first insert of a cadence compilation (lines 1988-1997):
snapshot pages never seen in this cadence history get a row with all
aspects copied from `pages_info` and `life = 1`. -/
def newRows (hist : List HistRow) (ts : Nat) (snap : List SnapPage) :
    List HistRow :=
  (snap.filter (fun p => !(hist.map (·.pid)).contains p.pid)).map
    (fun p => (⟨ts, p.pid, p.aspects, some 1⟩ : HistRow))

/-- The second insert (lines 1999-2025), reading the history as left by
the first: every page id in the history whose latest life value is
positive and that is absent from the scrape's `pages` table gets a row
with only `life`, negated. -/
def deathRows (hist1 : List HistRow) (ts : Nat) (snap : List SnapPage) :
    List HistRow :=
  ((hist1.map (·.pid)).dedup).filterMap (fun pid =>
    if (snap.map (·.pid)).contains pid then none
    else
      match lastKnown hist1 pid (·.life) with
      | some l =>
        if 0 < l then some (⟨ts, pid, fun _ => none, some (-l)⟩ : HistRow)
        else none
      | none => none)

/-- The third insert (lines 2027-2084), reading the history as left by
the first two.  The `new_pages` temp view is re-evaluated here — the
new pages being in the history by now, it is empty, so every snapshot
page is visited (new pages diff against their just-inserted rows and
produce nothing).  A row is written when at least one aspect diff or
the reappearance life value is non-null. -/
def chgRows (hist2 : List HistRow) (ts : Nat) (snap : List SnapPage) :
    List HistRow :=
  let newPids2 := (snap.map (·.pid)).filter
    (fun pid => !(hist2.map (·.pid)).contains pid)
  snap.filterMap (fun p =>
    if newPids2.contains p.pid then none
    else
      let diff := fun a => aspectDiff (p.aspects a)
        (lastKnown hist2 p.pid (fun r => r.aspects a))
      let lifeNew := lifeDiff (lastKnown hist2 p.pid (·.life))
      if (List.finRange numAspects).any (fun a => (diff a).isSome)
          || lifeNew.isSome then
        some (⟨ts, p.pid, diff, lifeNew⟩ : HistRow)
      else none)

/-- One cadence compilation: the loop body of `compile_history` after
the governance checks pass (lines 1975-2084) — the three inserts in
order, each reading the table state the previous one left. -/
def compileCadence (hist : List HistRow) (ts : Nat) (snap : List SnapPage) :
    List HistRow :=
  let hist1 := hist ++ newRows hist ts snap
  let hist2 := hist1 ++ deathRows hist1 ts snap
  hist2 ++ chgRows hist2 ts snap

/-- The two cadence history tables of the master database. -/
structure MasterHist where
  weekly : List HistRow
  monthly : List HistRow
  deriving DecidableEq

/-- The history table of a cadence. -/
def histOf (st : MasterHist) (t : String) : List HistRow :=
  if t == "weekly" then st.weekly else st.monthly

/-- Replace the history table of a cadence. -/
def setHist (st : MasterHist) (t : String) (h : List HistRow) : MasterHist :=
  if t == "weekly" then { st with weekly := h } else { st with monthly := h }

/-- The cadence watermark `SELECT max(timestamp) FROM page_hist_<type>`. -/
def watermark (hist : List HistRow) : Option Nat :=
  (hist.map (·.ts)).max?

/-- Model of `compile_history` (lines 1849-2089).  `types` is
`scrape_type.split('/')`.  `dateOk t lst cur` abstracts the calendar
consecutiveness checks of lines 1947-1965 (`first_dow`/`first_dom` on
parsed timestamps); like the code it is consulted only when
`checkDates` holds and the cadence has a previous timestamp.  Each
listed cadence is processed in turn: an invalid type, a timestamp at
or before that cadence's watermark, or a failed date check makes the
function return `False` at once — whatever earlier cadences wrote in
the same call stays written. -/
def compile_history (dateOk : String → Nat → Nat → Bool) (checkDates : Bool)
    (ts : Nat) (snap : List SnapPage) :
    List String → MasterHist → Bool × MasterHist
  | [], st => (true, st)
  | t :: rest, st =>
    if t != "weekly" && t != "monthly" then (false, st)
    else
      let hist := histOf st t
      match watermark hist with
      | some lst =>
        if ts ≤ lst then (false, st)
        else if checkDates && !dateOk t lst ts then (false, st)
        else
          compile_history dateOk checkDates ts snap rest
            (setHist st t (compileCadence hist ts snap))
      | none =>
        compile_history dateOk checkDates ts snap rest
          (setHist st t (compileCadence hist ts snap))

end Scraper

namespace Scraper

/-- A one-page snapshot. -/
def snapC2 : List SnapPage := [⟨1, fun _ => none⟩]

/-- A master state with an empty weekly history and a monthly history
whose watermark is 10. -/
def stC2 : MasterHist := ⟨[], [⟨10, 2, fun _ => none, some 1⟩]⟩

/-- C2 counterexample: the rejection is not atomic across cadences.
With `scrape_type = "weekly/monthly"` and a snapshot timestamp equal to
the monthly watermark, `compile_history` compiles the weekly cadence
first — writing a birth row into `page_hist_weekly` — and only then
hits the monthly governance check and returns `False`: the claim's
"the watermark of every cadence is left unchanged ... also when the
scrape is typed as both weekly and monthly in one call" fails, the
weekly table having grown from 0 to 1 rows. -/
theorem compile_history_rejection_not_atomic :
    watermark (histOf stC2 "monthly") = some 10 ∧
    (compile_history (fun _ _ _ => true) true 10 snapC2
      ["weekly", "monthly"] stC2).1 = false ∧
    (compile_history (fun _ _ _ => true) true 10 snapC2
      ["weekly", "monthly"] stC2).2.weekly.length = 1 ∧
    stC2.weekly.length = 0 := by
  refine ⟨rfl, ?_, ?_, rfl⟩ <;> rfl

/-- C2 amended: per cadence the rejection is sound — for the first
cadence listed in the call (and hence, whenever a single cadence is
given, for the whole call), a snapshot timestamp at or before that
cadence's watermark makes `compile_history` return `False` with every
history table of every cadence exactly as it was.  (For a later listed
cadence the rows the earlier cadences wrote in the same call remain:
see the counterexample.) -/
theorem compile_history_first_cadence_rejects_unchanged
    (dateOk : String → Nat → Nat → Bool) (checkDates : Bool) (ts : Nat)
    (snap : List SnapPage) (t : String) (rest : List String)
    (st : MasterHist) (lst : Nat)
    (ht : t = "weekly" ∨ t = "monthly")
    (hw : watermark (histOf st t) = some lst)
    (hts : ts ≤ lst) :
    compile_history dateOk checkDates ts snap (t :: rest) st = (false, st) := by
  rcases ht with h | h <;> subst h <;>
    simp [compile_history, hw, hts]

theorem compile_history_first_cadence_rejects_unchanged_witness :
    compile_history (fun _ _ _ => true) true 10 snapC2 ["monthly"] stC2 =
      (false, stC2) :=
  compile_history_first_cadence_rejects_unchanged (fun _ _ _ => true) true 10
    snapC2 "monthly" [] stC2 10 (Or.inr rfl) rfl (by decide)

end Scraper

namespace Scraper

/-- The history rows of one page identity. -/
def pidRows (hist : List HistRow) (pid : Nat) : List HistRow :=
  hist.filter (fun r => r.pid == pid)

theorem pidRows_append (h1 h2 : List HistRow) (pid : Nat) :
    pidRows (h1 ++ h2) pid = pidRows h1 pid ++ pidRows h2 pid :=
  List.filter_append _ _

theorem foldl_skip {α β : Type} (g : β → α → β) (q : α → Bool)
    (h : ∀ acc a, q a = false → g acc a = acc) :
    ∀ (l : List α) (acc : β), l.foldl g acc = (l.filter q).foldl g acc := by
  intro l
  induction l with
  | nil => intro acc; rfl
  | cons a l ih =>
    intro acc
    rcases hq : q a with _ | _
    · rw [List.foldl_cons, h acc a hq, List.filter_cons, hq]
      exact ih acc
    · rw [List.foldl_cons, List.filter_cons, hq]
      simp only [if_true]
      rw [List.foldl_cons]
      exact ih (g acc a)

theorem lastKnown_pidRows {α : Type} (hist : List HistRow) (pid : Nat)
    (f : HistRow → Option α) :
    lastKnown hist pid f = lastKnown (pidRows hist pid) pid f := by
  unfold lastKnown pidRows
  rw [foldl_skip _ (fun r => r.pid == pid)]
  intro acc r hq
  simp [hq]

theorem filter_map_pid {α : Type} (f : α → HistRow) (pidOf : α → Nat)
    (pid : Nat) (hf : ∀ a, (f a).pid = pidOf a) (l : List α) :
    (l.map f).filter (fun r => r.pid == pid) =
      (l.filter (fun a => pidOf a == pid)).map f := by
  induction l with
  | nil => rfl
  | cons a l ih =>
    rw [List.map_cons, List.filter_cons, List.filter_cons]
    simp only [hf a]
    rcases hq : (pidOf a == pid) with _ | _
    · simp only [Bool.false_eq_true, if_false]
      exact ih
    · simp only [if_true, List.map_cons]
      rw [ih]

theorem filter_filterMap_pid {α : Type} (g : α → Option HistRow)
    (pidOf : α → Nat) (pid : Nat)
    (hg : ∀ a r, g a = some r → r.pid = pidOf a) (l : List α) :
    (l.filterMap g).filter (fun r => r.pid == pid) =
      (l.filter (fun a => pidOf a == pid)).filterMap g := by
  induction l with
  | nil => rfl
  | cons a l ih =>
    rw [List.filterMap_cons, List.filter_cons]
    rcases hga : g a with _ | r
    · rcases hq : (pidOf a == pid) with _ | _
      · simp only [Bool.false_eq_true, if_false]
        exact ih
      · simp only [if_true, List.filterMap_cons, hga]
        exact ih
    · have hr : r.pid = pidOf a := hg a r hga
      rw [List.filter_cons]
      simp only [hr]
      rcases hq : (pidOf a == pid) with _ | _
      · simp only [Bool.false_eq_true, if_false]
        exact ih
      · simp only [if_true, List.filterMap_cons, hga]
        rw [ih]

theorem filter_beq_of_nodup {l : List Nat} (h : l.Nodup) (a : Nat) :
    l.filter (fun x => x == a) = if a ∈ l then [a] else [] := by
  induction l with
  | nil => simp
  | cons b l ih =>
    rw [List.filter_cons]
    rcases hq : (b == a) with _ | _
    · have hba : b ≠ a := by simpa using hq
      simp only [Bool.false_eq_true, if_false]
      rw [ih (List.Nodup.of_cons h)]
      rcases hm : decide (a ∈ l) with _ | _
      · have : a ∉ l := of_decide_eq_false hm
        simp [this, hba, Ne.symm hba]
      · have : a ∈ l := of_decide_eq_true hm
        simp [this, List.mem_cons]
    · have hba : b = a := by simpa using hq
      subst hba
      have hnl : b ∉ l := (List.nodup_cons.1 h).1
      simp only [if_true]
      have : l.filter (fun x => x == b) = [] := by
        rw [List.filter_eq_nil_iff]
        intro x hx
        simp only [beq_iff_eq]
        intro hxa
        exact hnl (hxa ▸ hx)
      simp [this]

theorem dedup_const {l : List Nat} {a : Nat} (h : ∀ x ∈ l, x = a) :
    l.dedup = if l = [] then [] else [a] := by
  induction l with
  | nil => simp
  | cons b l ih =>
    have hb : b = a := h b (List.mem_cons_self _ _)
    subst hb
    have hl : ∀ x ∈ l, x = b := fun x hx => h x (List.mem_cons_of_mem _ hx)
    rcases hle : l with _ | ⟨c, l'⟩
    · simp
    · rw [← hle]
      have hbl : b ∈ l := by
        rw [hle]
        have := hl c (by rw [hle]; exact List.mem_cons_self _ _)
        rw [← this]
        exact List.mem_cons_self _ _
      rw [List.dedup_cons_of_mem hbl, ih hl]
      simp [hle]

end Scraper

namespace Scraper

theorem pid_contains_pidRows (hist : List HistRow) (pid : Nat) :
    ((pidRows hist pid).map (·.pid)).contains pid =
      (hist.map (·.pid)).contains pid := by
  rw [Bool.eq_iff_iff]
  simp only [List.contains_eq_any_beq, List.any_eq_true, List.mem_map,
    pidRows, List.mem_filter, beq_iff_eq]
  constructor
  · rintro ⟨x, ⟨r, ⟨hr, _⟩, hx⟩, he⟩
    exact ⟨x, ⟨r, hr, hx⟩, he⟩
  · rintro ⟨x, ⟨r, hr, hx⟩, he⟩
    exact ⟨x, ⟨r, ⟨hr, by rw [hx, ← he]⟩, hx⟩, he⟩

theorem pid_contains_snapP (snap : List SnapPage) (pid : Nat) :
    (((snap.filter (fun p => p.pid == pid)).map (·.pid)).contains pid) =
      ((snap.map (·.pid)).contains pid) := by
  rw [Bool.eq_iff_iff]
  simp only [List.contains_eq_any_beq, List.any_eq_true, List.mem_map,
    List.mem_filter, beq_iff_eq]
  constructor
  · rintro ⟨x, ⟨r, ⟨hr, _⟩, hx⟩, he⟩
    exact ⟨x, ⟨r, hr, hx⟩, he⟩
  · rintro ⟨x, ⟨r, hr, hx⟩, he⟩
    exact ⟨x, ⟨r, ⟨hr, by rw [hx, ← he]⟩, hx⟩, he⟩

theorem pidRows_eq_nil_iff (hist : List HistRow) (pid : Nat) :
    pidRows hist pid = [] ↔ (hist.map (·.pid)).contains pid = false := by
  simp only [pidRows, List.filter_eq_nil_iff, List.contains_eq_any_beq,
    List.any_eq_false, List.mem_map, beq_iff_eq]
  constructor
  · rintro h x ⟨r, hr, hx⟩ he
    exact h r hr (by simp [hx, he])
  · rintro h r hr hx
    exact h r.pid ⟨r, hr, rfl⟩ hx.symm

end Scraper

namespace Scraper

theorem newRows_pidRows (hist : List HistRow) (ts : Nat)
    (snap : List SnapPage) (pid : Nat) :
    pidRows (newRows hist ts snap) pid =
      newRows (pidRows hist pid) ts (snap.filter (fun p => p.pid == pid)) := by
  unfold newRows pidRows
  rw [filter_map_pid _ (fun p : SnapPage => p.pid) pid (fun _ => rfl)]
  rw [List.filter_filter, List.filter_filter]
  apply congrArg
  apply List.filter_congr
  intro p hp
  rcases hq : (p.pid == pid) with _ | _
  · simp [hq]
  · have hpe : p.pid = pid := by simpa using hq
    simp only [hq, Bool.true_and, Bool.and_true]
    rw [hpe]
    have hcp := pid_contains_pidRows hist pid
    unfold pidRows at hcp
    rw [hcp]

end Scraper

namespace Scraper

theorem contains_eq_decide_mem (l : List Nat) (a : Nat) :
    l.contains a = decide (a ∈ l) := by
  rw [Bool.eq_iff_iff]
  simp only [List.contains_eq_any_beq, List.any_eq_true, beq_iff_eq,
    decide_eq_true_eq]
  constructor
  · rintro ⟨x, hx, he⟩
    exact he ▸ hx
  · intro h
    exact ⟨a, h, rfl⟩

theorem deathRows_pidRows (hist1 : List HistRow) (ts : Nat)
    (snap : List SnapPage) (pid : Nat) :
    pidRows (deathRows hist1 ts snap) pid =
      deathRows (pidRows hist1 pid) ts
        (snap.filter (fun p => p.pid == pid)) := by
  have hg : ∀ (a : Nat) (r : HistRow),
      (fun pid' =>
        if (snap.map (·.pid)).contains pid' then none
        else
          match lastKnown hist1 pid' (·.life) with
          | some l =>
            if 0 < l then
              some (⟨ts, pid', fun _ => none, some (-l)⟩ : HistRow)
            else none
          | none => none) a = some r → r.pid = a := by
    intro a r h
    simp only at h
    split at h
    · cases h
    · split at h
      · split at h
        · cases h
          rfl
        · cases h
      · cases h
  have hall : ∀ x ∈ (pidRows hist1 pid).map (·.pid), x = pid := by
    intro x hx
    simp only [List.mem_map, pidRows, List.mem_filter] at hx
    rcases hx with ⟨r, ⟨_, hr⟩, hx⟩
    rw [← hx]
    simpa using hr
  unfold deathRows
  rw [show pidRows (((hist1.map (·.pid)).dedup).filterMap _) pid =
      (((hist1.map (·.pid)).dedup).filter (fun a => a == pid)).filterMap _ from
    filter_filterMap_pid _ (fun a => a) pid hg _]
  rw [filter_beq_of_nodup (List.nodup_dedup _) pid]
  rw [dedup_const hall]
  have hsnapc : ((snap.filter (fun p => p.pid == pid)).map (·.pid)).contains pid
      = (snap.map (·.pid)).contains pid := pid_contains_snapP snap pid
  have hlk : lastKnown (pidRows hist1 pid) pid (·.life) =
      lastKnown hist1 pid (·.life) := (lastKnown_pidRows hist1 pid _).symm
  rcases hc : (hist1.map (·.pid)).contains pid with _ | _
  · have hnm : pid ∉ (hist1.map (·.pid)).dedup := by
      rw [List.mem_dedup]
      intro hm
      rw [contains_eq_decide_mem] at hc
      exact absurd hm (of_decide_eq_false hc)
    have hnilP : pidRows hist1 pid = [] := (pidRows_eq_nil_iff hist1 pid).2 hc
    rw [hnilP]
    simp [hnm]
  · have hm : pid ∈ (hist1.map (·.pid)).dedup := by
      rw [List.mem_dedup]
      rw [contains_eq_decide_mem] at hc
      exact of_decide_eq_true hc
    have hneP : ¬(pidRows hist1 pid).map (·.pid) = [] := by
      rw [List.map_eq_nil_iff]
      intro hnil
      rw [(pidRows_eq_nil_iff hist1 pid).1 hnil] at hc
      cases hc
    rw [if_pos hm, if_neg hneP]
    simp only [List.filterMap_cons, List.filterMap_nil]
    rw [hsnapc, hlk]

end Scraper

namespace Scraper

theorem contains_filter_not (l c : List Nat) (a : Nat) :
    (l.filter (fun q => !c.contains q)).contains a =
      (l.contains a && !c.contains a) := by
  by_cases h1 : a ∈ l <;> by_cases h2 : a ∈ c <;>
    simp [h1, h2, contains_eq_decide_mem, List.mem_filter]

theorem chgRows_pidRows (hist2 : List HistRow) (ts : Nat)
    (snap : List SnapPage) (pid : Nat) :
    pidRows (chgRows hist2 ts snap) pid =
      chgRows (pidRows hist2 pid) ts
        (snap.filter (fun p => p.pid == pid)) := by
  have hg : ∀ (p : SnapPage) (r : HistRow),
      (fun p : SnapPage =>
        if ((snap.map (·.pid)).filter
            (fun q => !(hist2.map (·.pid)).contains q)).contains p.pid then
          none
        else
          if (List.finRange numAspects).any
              (fun a => (aspectDiff (p.aspects a)
                (lastKnown hist2 p.pid (fun r => r.aspects a))).isSome)
              || (lifeDiff (lastKnown hist2 p.pid (·.life))).isSome then
            some (⟨ts, p.pid,
              fun a => aspectDiff (p.aspects a)
                (lastKnown hist2 p.pid (fun r => r.aspects a)),
              lifeDiff (lastKnown hist2 p.pid (·.life))⟩ : HistRow)
          else none) p = some r → r.pid = p.pid := by
    intro p r h
    simp only at h
    split at h
    · cases h
    · split at h
      · cases h
        rfl
      · cases h
  have hLHS : pidRows (chgRows hist2 ts snap) pid =
      (chgRows hist2 ts snap).filter (fun r => r.pid == pid) := rfl
  rw [hLHS]
  unfold chgRows
  dsimp only
  rw [filter_filterMap_pid _ (fun p : SnapPage => p.pid) pid hg]
  apply List.filterMap_congr
  intro p hp
  have hpe : p.pid = pid := by
    have := (List.mem_filter.1 hp).2
    simpa using this
  simp only [hpe]
  rw [contains_filter_not, contains_filter_not]
  rw [pid_contains_snapP, pid_contains_pidRows]
  simp only [← lastKnown_pidRows]

end Scraper

namespace Scraper

/-- Locality of one cadence compilation: the rows a compilation
produces for one page identity are exactly the compilation of that
page's own history rows against that page's own snapshot entries — no
other page influences them. -/
theorem compileCadence_pidRows (hist : List HistRow) (ts : Nat)
    (snap : List SnapPage) (pid : Nat) :
    pidRows (compileCadence hist ts snap) pid =
      compileCadence (pidRows hist pid) ts
        (snap.filter (fun p => p.pid == pid)) := by
  have h1 : pidRows (hist ++ newRows hist ts snap) pid =
      (pidRows hist pid) ++ newRows (pidRows hist pid) ts
        (snap.filter (fun p => p.pid == pid)) := by
    rw [pidRows_append, newRows_pidRows]
  have h2 : pidRows ((hist ++ newRows hist ts snap) ++
      deathRows (hist ++ newRows hist ts snap) ts snap) pid =
      ((pidRows hist pid) ++ newRows (pidRows hist pid) ts
        (snap.filter (fun p => p.pid == pid))) ++
      deathRows ((pidRows hist pid) ++ newRows (pidRows hist pid) ts
        (snap.filter (fun p => p.pid == pid))) ts
        (snap.filter (fun p => p.pid == pid)) := by
    rw [pidRows_append, h1, deathRows_pidRows, h1]
  unfold compileCadence
  dsimp only
  rw [pidRows_append, h2, chgRows_pidRows, h2]

end Scraper

namespace Scraper

theorem lastKnown_single {α : Type} (r : HistRow) (pid : Nat)
    (f : HistRow → Option α) (h : r.pid = pid) :
    lastKnown [r] pid f = f r := by
  unfold lastKnown
  simp only [List.foldl_cons, List.foldl_nil, h, beq_self_eq_true,
    Bool.true_and]
  rcases hf : f r with _ | v
  · simp [hf]
  · simp [hf]

theorem lastKnown_pair_snd_none {α : Type} (r1 r2 : HistRow) (pid : Nat)
    (f : HistRow → Option α) (h1 : r1.pid = pid) (hf2 : f r2 = none) :
    lastKnown [r1, r2] pid f = f r1 := by
  unfold lastKnown
  simp only [List.foldl_cons, List.foldl_nil, h1, beq_self_eq_true,
    Bool.true_and, hf2, Option.isSome_none, Bool.and_false]
  rcases hf : f r1 with _ | v
  · simp [hf]
  · simp [hf]

theorem lastKnown_pair_ts {α : Type} (r1 r2 : HistRow) (pid : Nat)
    (f : HistRow → Option α) (h1 : r1.pid = pid) (h2 : r2.pid = pid)
    (hf1 : (f r1).isSome = true) (hf2 : (f r2).isSome = true)
    (hts : r1.ts ≤ r2.ts) :
    lastKnown [r1, r2] pid f = f r2 := by
  unfold lastKnown
  simp only [List.foldl_cons, List.foldl_nil, h1, h2, beq_self_eq_true,
    Bool.true_and, hf1, hf2, if_true, hts]
  rfl

theorem aspectDiff_self (v : Option String) : aspectDiff v v = none := by
  cases v <;> simp [aspectDiff]

theorem dedup_singleton_nat (a : Nat) : ([a] : List Nat).dedup = [a] := by
  have h : ∀ x ∈ ([a] : List Nat), x = a := by
    intro x hx
    simpa using hx
  rw [dedup_const h]
  simp

theorem dedup_pair_same (a : Nat) : ([a, a] : List Nat).dedup = [a] := by
  have h : ∀ x ∈ ([a, a] : List Nat), x = a := by
    intro x hx
    rcases List.mem_cons.mp hx with h | h
    · exact h
    · simpa using h
  rw [dedup_const h]
  simp

theorem compileCadence_birth (ts : Nat) (pid : Nat)
    (A : Aspect → Option String) :
    compileCadence [] ts [⟨pid, A⟩] = [⟨ts, pid, A, some 1⟩] := by
  unfold compileCadence newRows deathRows chgRows
  simp only [List.map_nil, List.map_cons, List.filter_cons, List.filter_nil,
    List.contains_nil, Bool.not_false, if_true, List.nil_append,
    List.filterMap_cons, List.filterMap_nil, dedup_singleton_nat]
  simp [lastKnown_single, aspectDiff_self, lifeDiff, dedup_singleton_nat]

end Scraper

namespace Scraper

theorem compileCadence_death (t1 t2 : Nat) (pid : Nat)
    (A : Aspect → Option String) :
    compileCadence [⟨t1, pid, A, some 1⟩] t2 [] =
      [⟨t1, pid, A, some 1⟩, ⟨t2, pid, fun _ => none, some (-1)⟩] := by
  unfold compileCadence newRows deathRows chgRows
  simp only [List.map_nil, List.map_cons, List.filter_nil, List.filter_cons,
    List.contains_nil, List.nil_append, List.append_nil,
    List.filterMap_cons, List.filterMap_nil, dedup_singleton_nat]
  simp [lastKnown_single]

theorem compileCadence_reappear (t1 t2 t3 : Nat) (pid : Nat)
    (A B : Aspect → Option String) (h12 : t1 ≤ t2) :
    compileCadence [⟨t1, pid, A, some 1⟩, ⟨t2, pid, fun _ => none, some (-1)⟩]
        t3 [⟨pid, B⟩] =
      [⟨t1, pid, A, some 1⟩, ⟨t2, pid, fun _ => none, some (-1)⟩,
       ⟨t3, pid, fun a => aspectDiff (B a) (A a), some 2⟩] := by
  have hasp : ∀ a : Aspect,
      lastKnown [(⟨t1, pid, A, some 1⟩ : HistRow),
        ⟨t2, pid, fun _ => none, some (-1)⟩] pid (fun r => r.aspects a) =
      A a := by
    intro a
    exact lastKnown_pair_snd_none _ _ pid _ rfl rfl
  have hlife :
      lastKnown [(⟨t1, pid, A, some 1⟩ : HistRow),
        ⟨t2, pid, fun _ => none, some (-1)⟩] pid (·.life) = some (-1) := by
    exact lastKnown_pair_ts _ _ pid _ rfl rfl rfl rfl h12
  unfold compileCadence newRows deathRows chgRows
  simp only [List.map_nil, List.map_cons, List.filter_nil, List.filter_cons,
    List.contains_nil, List.nil_append, List.append_nil,
    List.filterMap_cons, List.filterMap_nil, dedup_pair_same]
  simp [hasp, hlife, lifeDiff]

end Scraper

namespace Scraper

/-- C3: history life round-trip.  For a page identity with no prior
rows in the cadence history, present in an accepted snapshot, absent
from the next, and present again in the third, the three cadence
compilations write exactly three rows for that identity: birth with all
aspects copied and `life = 1`, death with only `life = -1`, and
reappearance with the changed aspects and `life = 2` — in that
chronological order.  (Each `compileCadence` is one accepted
compilation: `compile_history` applies it when governance passes.) -/
theorem history_life_roundtrip (hist0 : List HistRow)
    (snap1 snap2 snap3 : List SnapPage) (pid : Nat)
    (A B : Aspect → Option String) (t1 t2 t3 : Nat)
    (h0 : pidRows hist0 pid = [])
    (h1 : snap1.filter (fun p => p.pid == pid) = [⟨pid, A⟩])
    (h2 : snap2.filter (fun p => p.pid == pid) = [])
    (h3 : snap3.filter (fun p => p.pid == pid) = [⟨pid, B⟩])
    (h12 : t1 < t2) (_h23 : t2 < t3) :
    pidRows (compileCadence (compileCadence (compileCadence hist0 t1 snap1)
        t2 snap2) t3 snap3) pid =
      [⟨t1, pid, A, some 1⟩,
       ⟨t2, pid, fun _ => none, some (-1)⟩,
       ⟨t3, pid, fun a => aspectDiff (B a) (A a), some 2⟩] := by
  rw [compileCadence_pidRows, compileCadence_pidRows, compileCadence_pidRows,
    h3, h2, h1, h0, compileCadence_birth, compileCadence_death,
    compileCadence_reappear _ _ _ _ _ _ (le_of_lt h12)]

end Scraper

namespace Scraper

theorem compileCadence_existing (histP : List HistRow) (ts : Nat) (pid : Nat)
    (asp : Aspect → Option String)
    (hne : histP ≠ [])
    (hall : ∀ r ∈ histP, r.pid = pid) :
    compileCadence histP ts [⟨pid, asp⟩] =
      histP ++
        (if ((List.finRange numAspects).any (fun a =>
              (aspectDiff (asp a)
                (lastKnown histP pid (fun r => r.aspects a))).isSome)
            || (lifeDiff (lastKnown histP pid (·.life))).isSome) then
          [⟨ts, pid, fun a => aspectDiff (asp a)
              (lastKnown histP pid (fun r => r.aspects a)),
            lifeDiff (lastKnown histP pid (·.life))⟩]
         else []) := by
  have hc : (histP.map (·.pid)).contains pid = true := by
    rcases histP with _ | ⟨r, rest⟩
    · cases hne rfl
    · have := hall r (List.mem_cons_self r rest)
      simp [contains_eq_decide_mem, this]
  have hdd : ((histP.map (·.pid)).dedup) = [pid] := by
    have h : ∀ x ∈ histP.map (·.pid), x = pid := by
      intro x hx
      rcases List.mem_map.1 hx with ⟨r, hr, hx⟩
      rw [← hx]
      exact hall r hr
    rw [dedup_const h]
    have hnm : histP.map (·.pid) ≠ [] := by
      intro hnil
      exact hne (List.map_eq_nil_iff.1 hnil)
    simp [hnm]
  have hx0 : ¬(∀ x ∈ histP, ¬x.pid = pid) := by
    rcases histP with _ | ⟨r, rest⟩
    · cases hne rfl
    · intro hcontra
      exact hcontra r (List.mem_cons_self r rest) (hall r (List.mem_cons_self r rest))
  unfold compileCadence newRows deathRows chgRows
  simp only [List.map_cons, List.map_nil, List.filter_cons, List.filter_nil,
    hc, Bool.not_true, Bool.false_eq_true, if_false, List.append_nil, hdd,
    List.filterMap_cons, List.filterMap_nil]
  simp only [contains_eq_decide_mem]
  simp [hx0]
  split <;> simp_all

end Scraper

namespace Scraper

theorem aspectDiff_isSome_iff (scrV hisV : Option String) :
    (aspectDiff scrV hisV).isSome = true ↔
      scrV.isSome = true ∧ scrV ≠ hisV := by
  cases scrV with
  | none => simp [aspectDiff]
  | some v =>
    simp only [aspectDiff, Option.isSome_some, true_and]
    by_cases h : hisV = some v
    · simp [h]
    · simp only [if_neg h, Option.isSome_some]
      constructor
      · intro _
        exact fun he => h he.symm
      · intro _
        trivial

theorem lifeDiff_isSome_iff (hisLife : Option Int) :
    (lifeDiff hisLife).isSome = true ↔ ∃ l, hisLife = some l ∧ l < 0 := by
  cases hisLife with
  | none => simp [lifeDiff]
  | some l =>
    simp only [lifeDiff]
    by_cases h : l < 0
    · simp [h]
    · simp [h]

/-- C7 amended: change-row minimality for non-null values.  For a page
identity already in the cadence history and present (once) in the
snapshot, the compilation appends a row if and only if some aspect's
new value is non-null and differs from the most-recently-known value,
or the last known life is negative; the row carries exactly the
non-null changed values (`aspectDiff` per aspect: unchanged or null new
values give null columns) and `life = (-last life) + 1` exactly when
the last known life was negative.  A new value of null never counts as
a difference, even against a non-null last-known value: see the
counterexample. -/
theorem change_row_minimality (hist : List HistRow) (ts : Nat)
    (snap : List SnapPage) (pid : Nat) (asp : Aspect → Option String)
    (hmem : (hist.map (·.pid)).contains pid = true)
    (hsnap : snap.filter (fun p => p.pid == pid) = [⟨pid, asp⟩]) :
    pidRows (compileCadence hist ts snap) pid =
      pidRows hist pid ++
        (if ((List.finRange numAspects).any (fun a =>
              (aspectDiff (asp a)
                (lastKnown hist pid (fun r => r.aspects a))).isSome)
            || (lifeDiff (lastKnown hist pid (·.life))).isSome) then
          [⟨ts, pid, fun a => aspectDiff (asp a)
              (lastKnown hist pid (fun r => r.aspects a)),
            lifeDiff (lastKnown hist pid (·.life))⟩]
         else []) ∧
    (((List.finRange numAspects).any (fun a =>
          (aspectDiff (asp a)
            (lastKnown hist pid (fun r => r.aspects a))).isSome)
        || (lifeDiff (lastKnown hist pid (·.life))).isSome) = true ↔
      ((∃ a : Aspect, (asp a).isSome = true ∧
          asp a ≠ lastKnown hist pid (fun r => r.aspects a)) ∨
        (∃ l : Int, lastKnown hist pid (·.life) = some l ∧ l < 0))) := by
  have hne : pidRows hist pid ≠ [] := by
    intro hnil
    rw [(pidRows_eq_nil_iff hist pid).1 hnil] at hmem
    cases hmem
  have hall : ∀ r ∈ pidRows hist pid, r.pid = pid := by
    intro r hr
    have := (List.mem_filter.1 hr).2
    simpa using this
  constructor
  · rw [compileCadence_pidRows, hsnap,
      compileCadence_existing _ _ _ _ hne hall]
    simp only [← lastKnown_pidRows]
  · simp only [Bool.or_eq_true, List.any_eq_true, List.mem_finRange,
      true_and, aspectDiff_isSome_iff, lifeDiff_isSome_iff]

end Scraper

namespace Scraper

/-- A fully populated aspect row. -/
def aspC3 : Aspect → Option String := fun _ => some "v"

theorem history_life_roundtrip_witness :
    pidRows ([] : List HistRow) 1 = [] ∧
    ([(⟨1, aspC3⟩ : SnapPage)]).filter (fun p => p.pid == 1) =
      [⟨1, aspC3⟩] ∧
    ([] : List SnapPage).filter (fun p => p.pid == 1) = [] ∧
    (1 : Nat) < 2 ∧ (2 : Nat) < 3 ∧
    pidRows (compileCadence (compileCadence (compileCadence [] 1
        [⟨1, aspC3⟩]) 2 []) 3 [⟨1, aspC3⟩]) 1 =
      [⟨1, 1, aspC3, some 1⟩,
       ⟨2, 1, fun _ => none, some (-1)⟩,
       ⟨3, 1, fun a => aspectDiff (aspC3 a) (aspC3 a), some 2⟩] := by
  have h0 : pidRows ([] : List HistRow) 1 = [] := rfl
  have h1 : ([(⟨1, aspC3⟩ : SnapPage)]).filter (fun p => p.pid == 1) =
      [⟨1, aspC3⟩] := rfl
  have h2 : ([] : List SnapPage).filter (fun p => p.pid == 1) = [] := rfl
  exact ⟨h0, h1, h2, by decide, by decide,
    history_life_roundtrip [] [⟨1, aspC3⟩] [] [⟨1, aspC3⟩] 1 aspC3 aspC3
      1 2 3 h0 h1 h2 h1 (by decide) (by decide)⟩

end Scraper

namespace Scraper

/-- Aspect 0 holds `"x"`, the rest are null. -/
def aspC7x : Aspect → Option String :=
  fun a => if a.val = 0 then some "x" else none

/-- A history with one row: page 1 born at time 1 with aspect 0 known. -/
def histC7 : List HistRow := [⟨1, 1, aspC7x, some 1⟩]

/-- A snapshot where page 1 is present with every aspect null. -/
def snapC7 : List SnapPage := [⟨1, fun _ => none⟩]

/-- C7 counterexample: a transition to null is never recorded.  Page 1's
aspect 0 was last known as `"x"` and the new snapshot value is null —
the new value differs from the most-recently-known non-null value, so
the claim's "if and only if" demands a row — yet the aspect diff `CASE
WHEN scr.a = his.a THEN NULL ELSE scr.a END` is null whenever `scr.a`
is null, no aspect or life diff survives, and the cadence compilation
writes no row at all. -/
theorem compile_history_null_transition_no_row :
    compileCadence histC7 2 snapC7 = histC7 ∧
    lastKnown histC7 1 (fun r => r.aspects ⟨0, by decide⟩) = some "x" ∧
    lastKnown histC7 1 (fun r => r.life) = some 1 ∧
    (∀ p ∈ snapC7, p.aspects ⟨0, by decide⟩ = none) := by
  refine ⟨rfl, rfl, rfl, ?_⟩
  intro p hp
  cases hp with
  | head => rfl
  | tail _ h => cases h

/-- Aspect 0 holds `"y"`, the rest are null. -/
def aspC7y : Aspect → Option String :=
  fun a => if a.val = 0 then some "y" else none

theorem change_row_minimality_witness :
    (histC7.map (·.pid)).contains 1 = true ∧
    ([(⟨1, aspC7y⟩ : SnapPage)]).filter (fun p => p.pid == 1) =
      [⟨1, aspC7y⟩] ∧
    (pidRows (compileCadence histC7 2 [⟨1, aspC7y⟩]) 1 =
      pidRows histC7 1 ++
        (if ((List.finRange numAspects).any (fun a =>
              (aspectDiff (aspC7y a)
                (lastKnown histC7 1 (fun r => r.aspects a))).isSome)
            || (lifeDiff (lastKnown histC7 1 (·.life))).isSome) then
          [⟨2, 1, fun a => aspectDiff (aspC7y a)
              (lastKnown histC7 1 (fun r => r.aspects a)),
            lifeDiff (lastKnown histC7 1 (·.life))⟩]
         else []) ∧
      (((List.finRange numAspects).any (fun a =>
            (aspectDiff (aspC7y a)
              (lastKnown histC7 1 (fun r => r.aspects a))).isSome)
          || (lifeDiff (lastKnown histC7 1 (·.life))).isSome) = true ↔
        ((∃ a : Aspect, (aspC7y a).isSome = true ∧
            aspC7y a ≠ lastKnown histC7 1 (fun r => r.aspects a)) ∨
          (∃ l : Int, lastKnown histC7 1 (·.life) = some l ∧ l < 0)))) := by
  have hm : (histC7.map (·.pid)).contains 1 = true := rfl
  have hs : ([(⟨1, aspC7y⟩ : SnapPage)]).filter (fun p => p.pid == 1) =
      [⟨1, aspC7y⟩] := rfl
  exact ⟨hm, hs, change_row_minimality histC7 2 [⟨1, aspC7y⟩] 1 aspC7y hm hs⟩

end Scraper
